import Mathlib

/-!
# SimpleStats: the stat record and the stats component

A shallow embedding of `StatsComponent.h` / `StatsComponent.cpp`.

* `float` values are rationals; NaN and infinities are not represented.
  Comparisons and `FMath::Clamp` are exact on floats. The one arithmetic
  operation of the source is the sum in `AddCurrentValue`: its embedding is
  the exact sum, and `AddCurrentValueRounded` / `StatTickUpdateRounded` make
  the rounding of the binary32 sum explicit.
* A member function that mutates the record and returns a `float` becomes a
  function to `ℚ × FStatData` (the returned value, the record afterwards).
* `TMap<FName, FStatData>` is an association list searched from the front.
* Dereferencing a null pointer is undefined behaviour; a function whose
  execution does so has no defined result and yields `none`.
* `PrintStats` and `TickComponent` only print through the engine and change
  no state of the component; they are not embedded.
-/

namespace SimpleStats

/-- Modelled from the spec: `FMath::Clamp` is engine code that is not part of
this repository. The spec says the setters clamp a value to
`[minValue, maxValue]`, and that over an inverted range the value is clamped
toward `maxValue` first and then re-validated against `minValue`. -/
def FMath.Clamp (X MinValue MaxValue : ℚ) : ℚ :=
  max (min X MaxValue) MinValue

/-- Rounding of a rational to the nearest integer, ties to the even one. -/
def roundHalfEven (m : ℚ) : ℤ :=
  if m - ⌊m⌋ < 1 / 2 then ⌊m⌋
  else if 1 / 2 < m - ⌊m⌋ then ⌊m⌋ + 1
  else if ⌊m⌋ % 2 = 0 then ⌊m⌋ else ⌊m⌋ + 1

/-- The `float` (IEEE 754 binary32) value that an exact result `x` is rounded
to, round to nearest, ties to even: 24 significant bits, least exponent
`-126` (below it the spacing stays `2 ^ (-149)`). Results of magnitude
`2 ^ 128` or more, which become infinities, are outside the embedding. -/
def roundBinary32 (x : ℚ) : ℚ :=
  if x = 0 then 0
  else (roundHalfEven (x / (2 : ℚ) ^ (max (Int.log 2 |x|) (-126) - 23)) : ℚ) *
    (2 : ℚ) ^ (max (Int.log 2 |x|) (-126) - 23)

/-- The `FStatData` row struct. The `StatCurve` pointer is never read or
written by any member function and is left out. -/
structure FStatData where
  BaseValue : ℚ
  MinValue : ℚ
  MaxValue : ℚ
  CurrentValue : ℚ
  ChangePerTick : ℚ
deriving DecidableEq, Repr

namespace FStatData

/-- The default constructor `FStatData()`. -/
def ctor : FStatData :=
  { BaseValue := 0, MinValue := 0, MaxValue := 100, CurrentValue := 0, ChangePerTick := 0 }

/-- The constructor `FStatData(InBaseValue, InMinValue, InMaxValue, InChangePerTick)`. -/
def ctor4 (InBaseValue InMinValue InMaxValue InChangePerTick : ℚ) : FStatData :=
  { BaseValue := InBaseValue, MinValue := InMinValue, MaxValue := InMaxValue,
    CurrentValue := InBaseValue, ChangePerTick := InChangePerTick }

def GetCurrentValue (self : FStatData) : ℚ :=
  self.CurrentValue

def SetCurrentValue (self : FStatData) (NewValue : ℚ) : ℚ × FStatData :=
  let self1 := { self with CurrentValue := FMath.Clamp NewValue self.MinValue self.MaxValue }
  (self1.CurrentValue, self1)

/-- The sum here is the exact one; `AddCurrentValueRounded` below carries the
rounding of the `float` sum. -/
def AddCurrentValue (self : FStatData) (Value : ℚ) : ℚ × FStatData :=
  self.SetCurrentValue (self.CurrentValue + Value)

def GetBaseValue (self : FStatData) : ℚ :=
  self.BaseValue

def SetBaseValue (self : FStatData) (NewValue : ℚ) : ℚ × FStatData :=
  let self1 := { self with BaseValue := FMath.Clamp NewValue self.MinValue self.MaxValue }
  (self1.BaseValue, self1)

def GetMinValue (self : FStatData) : ℚ :=
  self.MinValue

def SetMinValue (self : FStatData) (NewMinValue : ℚ) : ℚ × FStatData :=
  let self1 := { self with MinValue := NewMinValue }
  let self2 := (self1.SetCurrentValue self1.CurrentValue).2
  (self2.MinValue, self2)

def GetMaxValue (self : FStatData) : ℚ :=
  self.MaxValue

def SetMaxValue (self : FStatData) (NewMaxValue : ℚ) : ℚ × FStatData :=
  let self1 := { self with MaxValue := NewMaxValue }
  let self2 := (self1.SetCurrentValue self1.CurrentValue).2
  (self2.MaxValue, self2)

def GetChangePerTick (self : FStatData) : ℚ :=
  self.ChangePerTick

def IsChangingPerTick (self : FStatData) : Bool :=
  decide (self.GetChangePerTick ≠ 0)

def SetChangePerTickValue (self : FStatData) (NewValue : ℚ) : ℚ × FStatData :=
  let self1 := { self with ChangePerTick := NewValue }
  (self1.ChangePerTick, self1)

def StatTickUpdate (self : FStatData) : FStatData :=
  if self.IsChangingPerTick then
    (self.AddCurrentValue self.ChangePerTick).2
  else
    self

def ResetStat (self : FStatData) : ℚ × FStatData :=
  self.SetCurrentValue self.BaseValue

/-- `AddCurrentValue` with the rounding of the `float` sum explicit: the value
passed to `SetCurrentValue` is `CurrentValue + Value` as computed in `float`,
the exact sum rounded by `rnd`. With `rnd = roundBinary32` this is the
arithmetic of the source; with `rnd = id` it is `AddCurrentValue`. -/
def AddCurrentValueRounded (rnd : ℚ → ℚ) (self : FStatData) (Value : ℚ) : ℚ × FStatData :=
  self.SetCurrentValue (rnd (self.CurrentValue + Value))

/-- `StatTickUpdate` over `AddCurrentValueRounded`. -/
def StatTickUpdateRounded (rnd : ℚ → ℚ) (self : FStatData) : FStatData :=
  if self.IsChangingPerTick then
    (self.AddCurrentValueRounded rnd self.ChangePerTick).2
  else
    self

end FStatData

/-! ## The component -/

/-- An `FName`: an interned name, compared for equality only. -/
abbrev FName := String

/-- The container `TMap<FName, FStatData>`: at most one entry is visible
under a key, the first one from the front. -/
abbrev TMap := List (FName × FStatData)

namespace TMap

/-- The `Find` member: a pointer to the value stored under `Key`, or null
(`none`). -/
def Find : TMap → FName → Option FStatData
  | [], _ => none
  | (k, v) :: rest, Key => if k = Key then some v else Find rest Key

/-- The `Add` member: sets the value stored under `Key`, replacing the one
already there when the key exists. -/
def Add : TMap → FName → FStatData → TMap
  | [], Key, Value => [(Key, Value)]
  | (k, v) :: rest, Key, Value =>
    if k = Key then (k, Value) :: rest else (k, v) :: Add rest Key Value

/-- A write through the reference that `Find` gave for `Key`: the value
stored under `Key` becomes `Value`, no entry is created. -/
def Store : TMap → FName → FStatData → TMap
  | [], _, _ => []
  | (k, v) :: rest, Key, Value =>
    if k = Key then (k, Value) :: rest else (k, v) :: Store rest Key Value

/-- The `GenerateKeyArray` member. -/
def GenerateKeyArray (m : TMap) : List FName :=
  m.map Prod.fst

end TMap

/-- Modelled from the spec: `UDataTable` is engine code that is not part of
this repository. The spec describes the initialisation input as an externally
supplied table mapping a stat identifier to the parameters of its record; the
source reads it with `GetRowNames` and `FindRow<FStatData>`. -/
structure UDataTable where
  RowMap : List (FName × FStatData)
deriving DecidableEq, Repr

namespace UDataTable

def GetRowNames (t : UDataTable) : List FName :=
  t.RowMap.map Prod.fst

/-- The `FindRow<FStatData>` member: a pointer to the row, or null (`none`). -/
def FindRow (t : UDataTable) (RowName : FName) : Option FStatData :=
  TMap.Find t.RowMap RowName

end UDataTable

/-- The state of a `UStatsComponent`. The multicast delegate `OnStatChanged`
is represented by the sequence of broadcasts made on it so far, oldest first.
`StatsDataTable` is a pointer, null being `none`. -/
structure UStatsComponent where
  Stats : TMap
  StatsDataTable : Option UDataTable
  bPrintStats : Bool
  OnStatChanged : List (FName × ℚ)
deriving DecidableEq, Repr

namespace UStatsComponent

/-- A freshly constructed component: an empty map, no data table, nothing
broadcast. -/
def ctor : UStatsComponent :=
  { Stats := [], StatsDataTable := none, bPrintStats := false, OnStatChanged := [] }

/-- The loop of `InitStats` over the row names still to visit. `FindRow`
returning null makes `*RowData` a null dereference. -/
def InitStats.loop (t : UDataTable) : List FName → UStatsComponent → Option UStatsComponent
  | [], c => some c
  | RowName :: rest, c =>
    match t.FindRow RowName with
    | none => none
    | some RowData =>
      let Data := RowData
      let Data1 := (Data.SetCurrentValue Data.GetBaseValue).2
      InitStats.loop t rest { c with Stats := TMap.Add c.Stats RowName Data1 }

def InitStats (c : UStatsComponent) : Option UStatsComponent :=
  match c.StatsDataTable with
  | some t => InitStats.loop t t.GetRowNames c
  | none => some c

def BeginPlay (c : UStatsComponent) : Option UStatsComponent :=
  InitStats c

/-- `GetStat` returns `*Stats.Find( StatName )`. When the name is not a key,
`Find` gives a null pointer and the dereference is undefined behaviour: the
result is `none`. Otherwise the reference designates the stored record. -/
def GetStat (c : UStatsComponent) (StatName : FName) : Option FStatData :=
  TMap.Find c.Stats StatName

/-- The loop of `StatTick` over the key array. -/
def StatTick.loop : List FName → UStatsComponent → Option UStatsComponent
  | [], c => some c
  | Name :: rest, c =>
    match GetStat c Name with
    | none => none
    | some Stat =>
      StatTick.loop rest { c with Stats := TMap.Store c.Stats Name Stat.StatTickUpdate }

def StatTick (c : UStatsComponent) : Option UStatsComponent :=
  StatTick.loop (TMap.GenerateKeyArray c.Stats) c

/-!
Every per-stat function starts with `FStatData& Stat = GetStat( StatName )`
and then tests `if ( &Stat )`. A reference always designates an object in a
defined execution, so the test holds whenever `GetStat` has a result, and the
`return 0.0f` after it is reached in no defined execution: the functions
below are `none` exactly when `GetStat` is.
-/

def GetStatCurrentValue (c : UStatsComponent) (StatName : FName) : Option ℚ :=
  match GetStat c StatName with
  | none => none
  | some Stat => some Stat.GetCurrentValue

def SetStatCurrentValue (c : UStatsComponent) (StatName : FName) (Value : ℚ) :
    Option (ℚ × UStatsComponent) :=
  match GetStat c StatName with
  | none => none
  | some Stat =>
    let r := Stat.SetCurrentValue Value
    let NewValue := r.1
    some (NewValue, { c with Stats := TMap.Store c.Stats StatName r.2,
                             OnStatChanged := c.OnStatChanged ++ [(StatName, NewValue)] })

def AddStatCurrentValue (c : UStatsComponent) (StatName : FName) (Value : ℚ) :
    Option (ℚ × UStatsComponent) :=
  match GetStat c StatName with
  | none => none
  | some Stat =>
    let r := Stat.AddCurrentValue Value
    some (r.1, { c with Stats := TMap.Store c.Stats StatName r.2 })

def GetStatBaseValue (c : UStatsComponent) (StatName : FName) : Option ℚ :=
  match GetStat c StatName with
  | none => none
  | some Stat => some Stat.GetBaseValue

def SetStatBaseValue (c : UStatsComponent) (StatName : FName) (Value : ℚ) :
    Option (ℚ × UStatsComponent) :=
  match GetStat c StatName with
  | none => none
  | some Stat =>
    let r := Stat.SetBaseValue Value
    some (r.1, { c with Stats := TMap.Store c.Stats StatName r.2 })

def GetStatChangePerTickValue (c : UStatsComponent) (StatName : FName) : Option ℚ :=
  match GetStat c StatName with
  | none => none
  | some Stat => some Stat.GetChangePerTick

def IsStatChangingPerTick (c : UStatsComponent) (StatName : FName) : Option Bool :=
  match GetStat c StatName with
  | none => none
  | some Stat => some Stat.IsChangingPerTick

def SetStatChangePerTickValue (c : UStatsComponent) (StatName : FName) (Value : ℚ) :
    Option (ℚ × UStatsComponent) :=
  match GetStat c StatName with
  | none => none
  | some Stat =>
    let r := Stat.SetChangePerTickValue Value
    some (r.1, { c with Stats := TMap.Store c.Stats StatName r.2 })

def GetStatMinValue (c : UStatsComponent) (StatName : FName) : Option ℚ :=
  match GetStat c StatName with
  | none => none
  | some Stat => some Stat.GetMinValue

def SetStatMinValue (c : UStatsComponent) (StatName : FName) (Value : ℚ) :
    Option (ℚ × UStatsComponent) :=
  match GetStat c StatName with
  | none => none
  | some Stat =>
    let r := Stat.SetMinValue Value
    some (r.1, { c with Stats := TMap.Store c.Stats StatName r.2 })

def GetStatMaxValue (c : UStatsComponent) (StatName : FName) : Option ℚ :=
  match GetStat c StatName with
  | none => none
  | some Stat => some Stat.GetMaxValue

def SetStatMaxValue (c : UStatsComponent) (StatName : FName) (Value : ℚ) :
    Option (ℚ × UStatsComponent) :=
  match GetStat c StatName with
  | none => none
  | some Stat =>
    let r := Stat.SetMaxValue Value
    some (r.1, { c with Stats := TMap.Store c.Stats StatName r.2 })

def ResetStat (c : UStatsComponent) (StatName : FName) : Option (ℚ × UStatsComponent) :=
  match GetStat c StatName with
  | none => none
  | some Stat =>
    let r := Stat.ResetStat
    some (r.1, { c with Stats := TMap.Store c.Stats StatName r.2 })

/-- The loop of `ResetAllStats` over the key array. -/
def ResetAllStats.loop : List FName → UStatsComponent → Option UStatsComponent
  | [], c => some c
  | Name :: rest, c =>
    match ResetStat c Name with
    | none => none
    | some r => ResetAllStats.loop rest r.2

def ResetAllStats (c : UStatsComponent) : Option UStatsComponent :=
  ResetAllStats.loop (TMap.GenerateKeyArray c.Stats) c

end UStatsComponent

/-- The component of the spec's scenario once its two stats are registered. -/
def scenario : UStatsComponent :=
  { UStatsComponent.ctor with
    Stats := [("Health", FStatData.ctor4 100 0 100 0), ("Stamina", FStatData.ctor4 50 0 100 5)] }

/-- A component that is not initialised yet and whose data table is `RowMap`. -/
def withTable (RowMap : List (FName × FStatData)) : UStatsComponent :=
  { UStatsComponent.ctor with StatsDataTable := some { RowMap := RowMap } }

/-! ## Sequences of record operations -/

/-- The mutating member functions of `FStatData`, with their arguments. -/
inductive StatOp where
  | SetCurrentValue (v : ℚ)
  | AddCurrentValue (v : ℚ)
  | SetBaseValue (v : ℚ)
  | SetMinValue (v : ℚ)
  | SetMaxValue (v : ℚ)
  | SetChangePerTickValue (v : ℚ)
  | StatTickUpdate
  | ResetStat
deriving DecidableEq, Repr

/-- The record after one operation. -/
def StatOp.run : StatOp → FStatData → FStatData
  | .SetCurrentValue v, s => (s.SetCurrentValue v).2
  | .AddCurrentValue v, s => (s.AddCurrentValue v).2
  | .SetBaseValue v, s => (s.SetBaseValue v).2
  | .SetMinValue v, s => (s.SetMinValue v).2
  | .SetMaxValue v, s => (s.SetMaxValue v).2
  | .SetChangePerTickValue v, s => (s.SetChangePerTickValue v).2
  | .StatTickUpdate, s => s.StatTickUpdate
  | .ResetStat, s => s.ResetStat.2

/-- The records reachable from either constructor by the record's
operations. -/
inductive Reachable : FStatData → Prop where
  | ctor : Reachable FStatData.ctor
  | ctor4 (b lo hi d : ℚ) : Reachable (FStatData.ctor4 b lo hi d)
  | step (op : StatOp) (s : FStatData) : Reachable s → Reachable (op.run s)

/-- An operation that keeps the range non-inverted on `s`: a new minimum is at
most the maximum, a new maximum is at least the minimum. -/
def StatOp.keepsRange : StatOp → FStatData → Prop
  | .SetMinValue v, s => v ≤ s.MaxValue
  | .SetMaxValue v, s => s.MinValue ≤ v
  | _, _ => True

/-- The records reachable from a constructor whose base value lies in its
range, by operations that keep the range non-inverted. -/
inductive ReachableInRange : FStatData → Prop where
  | ctor : ReachableInRange FStatData.ctor
  | ctor4 (b lo hi d : ℚ) : lo ≤ b → b ≤ hi → ReachableInRange (FStatData.ctor4 b lo hi d)
  | step (op : StatOp) (s : FStatData) :
      ReachableInRange s → op.keepsRange s → ReachableInRange (op.run s)

/-- The record invariant `MinValue ≤ CurrentValue ≤ MaxValue`. -/
def FStatData.InRange (s : FStatData) : Prop :=
  s.MinValue ≤ s.CurrentValue ∧ s.CurrentValue ≤ s.MaxValue

/-! ## Clamp facts -/

theorem clamp_ge (X lo hi : ℚ) : lo ≤ FMath.Clamp X lo hi := by
  unfold FMath.Clamp
  exact le_max_right _ _

theorem clamp_le (X lo hi : ℚ) (h : lo ≤ hi) : FMath.Clamp X lo hi ≤ hi := by
  unfold FMath.Clamp
  exact max_le (min_le_right _ _) h

theorem clamp_id (X lo hi : ℚ) (h1 : lo ≤ X) (h2 : X ≤ hi) : FMath.Clamp X lo hi = X := by
  unfold FMath.Clamp
  rw [min_eq_left h2, max_eq_left h1]

theorem clamp_eq_ternary (X lo hi : ℚ) (h : lo ≤ hi) :
    FMath.Clamp X lo hi = if X < lo then lo else if X < hi then X else hi := by
  unfold FMath.Clamp
  simp only [max_def, min_def]
  split_ifs <;> linarith

theorem clamp_clamp_add (c e d lo hi : ℚ) (hlo : lo ≤ c) (hhi : c ≤ hi)
    (h : (0 ≤ e ∧ 0 ≤ d) ∨ (e ≤ 0 ∧ d ≤ 0)) :
    FMath.Clamp (FMath.Clamp (c + e) lo hi + d) lo hi = FMath.Clamp (c + e + d) lo hi := by
  unfold FMath.Clamp
  rcases h with ⟨he, hd⟩ | ⟨he, hd⟩
  · simp only [max_def, min_def]
    split_ifs <;> linarith
  · simp only [max_def, min_def]
    split_ifs <;> linarith

theorem clamp_eq_self_iff (X lo hi : ℚ) (h : lo ≤ hi) :
    FMath.Clamp X lo hi = X ↔ lo ≤ X ∧ X ≤ hi := by
  constructor
  · intro e
    exact ⟨e ▸ clamp_ge X lo hi, e ▸ clamp_le X lo hi h⟩
  · rintro ⟨h1, h2⟩
    exact clamp_id X lo hi h1 h2

/-! ## The stat record -/

/-- C1: on a record with `MinValue ≤ MaxValue`, `SetCurrentValue v` returns a
value `r` inside `[MinValue, MaxValue]`, `r = v` whenever `v` is already inside
the range, and afterwards `GetCurrentValue` is `r`. -/
theorem SetCurrentValue_clamps (s : FStatData) (v : ℚ) (h : s.MinValue ≤ s.MaxValue) :
    s.MinValue ≤ (s.SetCurrentValue v).1 ∧ (s.SetCurrentValue v).1 ≤ s.MaxValue ∧
    (s.MinValue ≤ v → v ≤ s.MaxValue → (s.SetCurrentValue v).1 = v) ∧
    (s.SetCurrentValue v).2.GetCurrentValue = (s.SetCurrentValue v).1 :=
  ⟨clamp_ge _ _ _, clamp_le _ _ _ h, fun h1 h2 => clamp_id _ _ _ h1 h2, rfl⟩

theorem SetCurrentValue_clamps_witness :
    FStatData.ctor.MinValue ≤ FStatData.ctor.MaxValue ∧
    (FStatData.ctor.MinValue ≤ (FStatData.ctor.SetCurrentValue 250).1 ∧
     (FStatData.ctor.SetCurrentValue 250).1 ≤ FStatData.ctor.MaxValue ∧
     (FStatData.ctor.MinValue ≤ 250 → 250 ≤ FStatData.ctor.MaxValue →
       (FStatData.ctor.SetCurrentValue 250).1 = 250) ∧
     (FStatData.ctor.SetCurrentValue 250).2.GetCurrentValue =
       (FStatData.ctor.SetCurrentValue 250).1) :=
  ⟨by decide, SetCurrentValue_clamps FStatData.ctor 250 (by decide)⟩

theorem InRange_of_step (op : StatOp) (s : FStatData) (hs : s.InRange)
    (hop : op.keepsRange s) : (op.run s).InRange := by
  obtain ⟨h1, h2⟩ := hs
  have h12 : s.MinValue ≤ s.MaxValue := le_trans h1 h2
  cases op with
  | SetCurrentValue v => exact ⟨clamp_ge _ _ _, clamp_le _ _ _ h12⟩
  | AddCurrentValue v => exact ⟨clamp_ge _ _ _, clamp_le _ _ _ h12⟩
  | SetBaseValue v => exact ⟨h1, h2⟩
  | SetMinValue v => exact ⟨clamp_ge _ _ _, clamp_le _ _ _ hop⟩
  | SetMaxValue v => exact ⟨clamp_ge _ _ _, clamp_le _ _ _ hop⟩
  | SetChangePerTickValue v => exact ⟨h1, h2⟩
  | StatTickUpdate =>
    show (FStatData.StatTickUpdate s).InRange
    unfold FStatData.StatTickUpdate
    split
    · exact ⟨clamp_ge _ _ _, clamp_le _ _ _ h12⟩
    · exact ⟨h1, h2⟩
  | ResetStat => exact ⟨clamp_ge _ _ _, clamp_le _ _ _ h12⟩

/-- C2 as stated fails: the four-argument constructor stores the base value as
current value without clamping, so `FStatData(200, 0, 100, 0)` is a reachable
record with `CurrentValue = 200 > MaxValue = 100`; and `SetMinValue(200)` on a
default record leaves a range `[200, 100]` that no current value can lie in. -/
theorem Reachable_not_InRange :
    (Reachable (FStatData.ctor4 200 0 100 0) ∧ ¬ (FStatData.ctor4 200 0 100 0).InRange) ∧
    (Reachable ((StatOp.SetMinValue 200).run FStatData.ctor) ∧
      ¬ ((StatOp.SetMinValue 200).run FStatData.ctor).InRange) := by
  refine ⟨⟨Reachable.ctor4 200 0 100 0, ?_⟩, ⟨Reachable.step _ _ Reachable.ctor, ?_⟩⟩
  · unfold FStatData.InRange; decide
  · unfold FStatData.InRange; decide

/-- C2, amended: every record reachable from the default constructor, or from
the four-argument constructor with `min ≤ base ≤ max`, by any sequence of the
record's operations in which `SetMinValue` / `SetMaxValue` keep
`MinValue ≤ MaxValue`, satisfies `MinValue ≤ CurrentValue ≤ MaxValue`. -/
theorem ReachableInRange_InRange (s : FStatData) (h : ReachableInRange s) : s.InRange := by
  induction h with
  | ctor => unfold FStatData.InRange; decide
  | ctor4 b lo hi d h1 h2 => exact ⟨h1, h2⟩
  | step op s _ hop ih => exact InRange_of_step op s ih hop

theorem ReachableInRange_InRange_witness :
    ((StatOp.SetMaxValue 50).run ((StatOp.AddCurrentValue 70).run FStatData.ctor)).InRange :=
  ReachableInRange_InRange _
    (ReachableInRange.step _ _ (ReachableInRange.step _ _ ReachableInRange.ctor trivial)
      (by show (0 : ℚ) ≤ 50; decide))

/-- With exact sums: on a record with `MinValue ≤ c0 ≤ MaxValue` (`c0` its
current value) and `ChangePerTick = d`, `N` successive `StatTickUpdate` calls
leave every field but `CurrentValue` as it was and `CurrentValue` equal to
`c0 + N * d` clamped to `[MinValue, MaxValue]`: it lies in the range, and it
is exactly `c0 + N * d` as long as that sum is in the range. -/
theorem StatTickUpdate_iterate (s : FStatData) (N : ℕ)
    (hlo : s.MinValue ≤ s.CurrentValue) (hhi : s.CurrentValue ≤ s.MaxValue) :
    (FStatData.StatTickUpdate^[N] s) =
      { s with CurrentValue :=
          FMath.Clamp (s.CurrentValue + N * s.ChangePerTick) s.MinValue s.MaxValue } ∧
    (FStatData.StatTickUpdate^[N] s).InRange ∧
    (s.MinValue ≤ s.CurrentValue + N * s.ChangePerTick →
      s.CurrentValue + N * s.ChangePerTick ≤ s.MaxValue →
      (FStatData.StatTickUpdate^[N] s).CurrentValue = s.CurrentValue + N * s.ChangePerTick) := by
  have key : (FStatData.StatTickUpdate^[N] s) =
      { s with CurrentValue :=
          FMath.Clamp (s.CurrentValue + N * s.ChangePerTick) s.MinValue s.MaxValue } := by
    induction N with
    | zero =>
      simp only [Function.iterate_zero, id_eq, Nat.cast_zero, zero_mul, add_zero]
      rw [clamp_id _ _ _ hlo hhi]
    | succ n ih =>
      rw [Function.iterate_succ_apply', ih]
      unfold FStatData.StatTickUpdate FStatData.IsChangingPerTick FStatData.GetChangePerTick
      by_cases hd : s.ChangePerTick = 0
      · simp [hd]
      · simp only [ne_eq, hd, not_false_eq_true, decide_True, if_true]
        unfold FStatData.AddCurrentValue FStatData.SetCurrentValue
        simp only
        have hsign : (0 ≤ (n : ℚ) * s.ChangePerTick ∧ 0 ≤ s.ChangePerTick) ∨
            ((n : ℚ) * s.ChangePerTick ≤ 0 ∧ s.ChangePerTick ≤ 0) := by
          rcases le_total 0 s.ChangePerTick with h0 | h0
          · exact Or.inl ⟨mul_nonneg (Nat.cast_nonneg n) h0, h0⟩
          · exact Or.inr ⟨mul_nonpos_of_nonneg_of_nonpos (Nat.cast_nonneg n) h0, h0⟩
        rw [clamp_clamp_add _ _ _ _ _ hlo hhi hsign]
        have e : s.CurrentValue + (n : ℚ) * s.ChangePerTick + s.ChangePerTick =
            s.CurrentValue + ((n + 1 : ℕ) : ℚ) * s.ChangePerTick := by
          push_cast; ring
        rw [e]
  refine ⟨key, ?_, ?_⟩
  · rw [key]
    exact ⟨clamp_ge _ _ _, clamp_le _ _ _ (le_trans hlo hhi)⟩
  · intro h1 h2
    rw [key]
    exact clamp_id _ _ _ h1 h2

theorem StatTickUpdate_iterate_witness :
    (FStatData.StatTickUpdate^[1] (FStatData.ctor4 50 0 100 5)).CurrentValue = 55 ∧
    (FStatData.StatTickUpdate^[11] (FStatData.ctor4 50 0 100 5)).CurrentValue = 100 := by
  have h1 := (StatTickUpdate_iterate (FStatData.ctor4 50 0 100 5) 1
    (by decide) (by decide)).1
  have h11 := (StatTickUpdate_iterate (FStatData.ctor4 50 0 100 5) 11
    (by decide) (by decide)).1
  rw [h1, h11]
  norm_num [FMath.Clamp, FStatData.ctor4]

/-- C7: on a record with `MinValue ≤ MaxValue`, `ResetStat` returns the base
value clamped to `[MinValue, MaxValue]` and stores it as current value, every
other field staying as it was; the current value is then the base value
exactly when `MinValue ≤ BaseValue ≤ MaxValue`. -/
theorem ResetStat_clamped_base (s : FStatData) (h : s.MinValue ≤ s.MaxValue) :
    s.ResetStat.1 = FMath.Clamp s.BaseValue s.MinValue s.MaxValue ∧
    s.ResetStat.2 =
      { s with CurrentValue := FMath.Clamp s.BaseValue s.MinValue s.MaxValue } ∧
    s.ResetStat.2.CurrentValue = s.ResetStat.1 ∧
    (s.ResetStat.2.CurrentValue = s.BaseValue ↔
      s.MinValue ≤ s.BaseValue ∧ s.BaseValue ≤ s.MaxValue) :=
  ⟨rfl, rfl, rfl, clamp_eq_self_iff _ _ _ h⟩

theorem ResetStat_clamped_base_witness :
    (FStatData.ctor4 40 0 100 0).ResetStat.2.CurrentValue = 40 :=
  ((ResetStat_clamped_base (FStatData.ctor4 40 0 100 0) (by decide)).2.2.2).2
    ⟨by decide, by decide⟩

/-- C8: on a record with `MinValue ≤ MaxValue` whose current value is
`MaxValue`, `AddCurrentValue d` with `d > 0` returns `MaxValue` and leaves the
record as it was; with the current value at `MinValue` and `d < 0` it returns
`MinValue` and leaves the record as it was. In every case
`AddCurrentValue d` is `SetCurrentValue (CurrentValue + d)`. -/
theorem AddCurrentValue_saturates (s : FStatData) (d : ℚ) (h : s.MinValue ≤ s.MaxValue) :
    (s.CurrentValue = s.MaxValue → 0 < d →
      (s.AddCurrentValue d).1 = s.MaxValue ∧ (s.AddCurrentValue d).2 = s) ∧
    (s.CurrentValue = s.MinValue → d < 0 →
      (s.AddCurrentValue d).1 = s.MinValue ∧ (s.AddCurrentValue d).2 = s) ∧
    s.AddCurrentValue d = s.SetCurrentValue (s.CurrentValue + d) := by
  refine ⟨?_, ?_, rfl⟩
  · intro hc hd
    have e : FMath.Clamp (s.CurrentValue + d) s.MinValue s.MaxValue = s.MaxValue := by
      unfold FMath.Clamp
      rw [min_eq_right (by linarith), max_eq_left h]
    refine ⟨e, ?_⟩
    cases s
    simp only [FStatData.AddCurrentValue, FStatData.SetCurrentValue] at e ⊢
    simp only at hc
    rw [e, hc]
  · intro hc hd
    have e : FMath.Clamp (s.CurrentValue + d) s.MinValue s.MaxValue = s.MinValue := by
      unfold FMath.Clamp
      rw [max_eq_right]
      exact le_trans (min_le_left _ _) (by linarith)
    refine ⟨e, ?_⟩
    cases s
    simp only [FStatData.AddCurrentValue, FStatData.SetCurrentValue] at e ⊢
    simp only at hc
    rw [e, hc]

theorem AddCurrentValue_saturates_witness :
    (((FStatData.ctor4 100 0 100 0).AddCurrentValue 7).1 = 100 ∧
      ((FStatData.ctor4 100 0 100 0).AddCurrentValue 7).2 = FStatData.ctor4 100 0 100 0) ∧
    (((FStatData.ctor4 0 0 100 0).AddCurrentValue (-7)).1 = 0 ∧
      ((FStatData.ctor4 0 0 100 0).AddCurrentValue (-7)).2 = FStatData.ctor4 0 0 100 0) :=
  ⟨(AddCurrentValue_saturates (FStatData.ctor4 100 0 100 0) 7 (by decide)).1
      (by decide) (by decide),
   (AddCurrentValue_saturates (FStatData.ctor4 0 0 100 0) (-7) (by decide)).2.1
      (by decide) (by decide)⟩

/-- C9: on a record with `MinValue ≤ MaxValue`, `SetMinValue b` returns `b`
and leaves the record with `MinValue = b` and the old current value clamped to
`[b, MaxValue]`, nothing else changed; `SetMaxValue b` returns `b` and leaves
`MaxValue = b` and the old current value clamped to `[MinValue, b]`. When the
new range is non-inverted the current value lies inside it, and a current
value that already lay inside the new range is unchanged. -/
theorem SetMinValue_SetMaxValue_reclamp (s : FStatData) (b : ℚ)
    (h : s.MinValue ≤ s.MaxValue) :
    ((s.SetMinValue b).1 = b ∧
      (s.SetMinValue b).2 =
        { s with MinValue := b, CurrentValue := FMath.Clamp s.CurrentValue b s.MaxValue } ∧
      (b ≤ s.MaxValue → (s.SetMinValue b).2.InRange) ∧
      (b ≤ s.CurrentValue → s.CurrentValue ≤ s.MaxValue →
        (s.SetMinValue b).2.CurrentValue = s.CurrentValue)) ∧
    ((s.SetMaxValue b).1 = b ∧
      (s.SetMaxValue b).2 =
        { s with MaxValue := b, CurrentValue := FMath.Clamp s.CurrentValue s.MinValue b } ∧
      (s.MinValue ≤ b → (s.SetMaxValue b).2.InRange) ∧
      (s.MinValue ≤ s.CurrentValue → s.CurrentValue ≤ b →
        (s.SetMaxValue b).2.CurrentValue = s.CurrentValue)) := by
  have _ := h
  exact ⟨⟨rfl, rfl, fun hb => ⟨clamp_ge _ _ _, clamp_le _ _ _ hb⟩,
      fun h1 h2 => clamp_id _ _ _ h1 h2⟩,
    ⟨rfl, rfl, fun hb => ⟨clamp_ge _ _ _, clamp_le _ _ _ hb⟩,
      fun h1 h2 => clamp_id _ _ _ h1 h2⟩⟩

theorem SetMinValue_SetMaxValue_reclamp_witness :
    ((FStatData.mk 50 0 100 55 5).SetMaxValue 50).1 = 50 ∧
    ((FStatData.mk 50 0 100 55 5).SetMaxValue 50).2 = FStatData.mk 50 0 50 50 5 ∧
    ((FStatData.mk 50 0 100 55 5).SetMaxValue 50).2.InRange := by
  have w := (SetMinValue_SetMaxValue_reclamp (FStatData.mk 50 0 100 55 5) 50 (by decide)).2
  refine ⟨w.1, ?_, w.2.2.1 (by decide)⟩
  rw [w.2.1]
  decide

/-- C10: on a record with `MinValue ≤ MaxValue`, `SetBaseValue v` returns `v`
clamped to `[MinValue, MaxValue]`, which lies in that range, stores it as base
value, and leaves the current value, the bounds and the change per tick as
they were. -/
theorem SetBaseValue_frame (s : FStatData) (v : ℚ) (h : s.MinValue ≤ s.MaxValue) :
    (s.SetBaseValue v).1 = FMath.Clamp v s.MinValue s.MaxValue ∧
    s.MinValue ≤ (s.SetBaseValue v).1 ∧ (s.SetBaseValue v).1 ≤ s.MaxValue ∧
    (s.SetBaseValue v).2.BaseValue = (s.SetBaseValue v).1 ∧
    (s.SetBaseValue v).2.CurrentValue = s.CurrentValue ∧
    (s.SetBaseValue v).2.MinValue = s.MinValue ∧
    (s.SetBaseValue v).2.MaxValue = s.MaxValue ∧
    (s.SetBaseValue v).2.ChangePerTick = s.ChangePerTick :=
  ⟨rfl, clamp_ge _ _ _, clamp_le _ _ _ h, rfl, rfl, rfl, rfl, rfl⟩

theorem SetBaseValue_frame_witness :
    ((FStatData.mk 50 0 100 55 5).SetBaseValue 120).1 = 100 ∧
    ((FStatData.mk 50 0 100 55 5).SetBaseValue 120).2.CurrentValue = 55 := by
  have w := SetBaseValue_frame (FStatData.mk 50 0 100 55 5) 120 (by decide)
  refine ⟨?_, w.2.2.2.2.1⟩
  rw [w.1]
  decide

/-! ## The map -/

theorem Find_Store_self (m : TMap) (k : FName) (v w : FStatData)
    (h : TMap.Find m k = some w) : TMap.Find (TMap.Store m k v) k = some v := by
  induction m with
  | nil => simp [TMap.Find] at h
  | cons p rest ih =>
    obtain ⟨k0, v0⟩ := p
    by_cases e : k0 = k
    · simp [TMap.Store, TMap.Find, e]
    · simp only [TMap.Find, e, if_false] at h
      simp [TMap.Store, TMap.Find, e, ih h]

theorem Find_Store_other (m : TMap) (k k1 : FName) (v : FStatData) (h : k1 ≠ k) :
    TMap.Find (TMap.Store m k v) k1 = TMap.Find m k1 := by
  induction m with
  | nil => rfl
  | cons p rest ih =>
    obtain ⟨k0, v0⟩ := p
    by_cases e : k0 = k
    · subst e
      have e1 : ¬ k0 = k1 := fun x => h x.symm
      simp [TMap.Store, TMap.Find, e1]
    · by_cases e1 : k0 = k1
      · subst e1
        simp [TMap.Store, TMap.Find, e]
      · simp [TMap.Store, TMap.Find, e, e1, ih]

theorem keys_Store (m : TMap) (k : FName) (v : FStatData) :
    TMap.GenerateKeyArray (TMap.Store m k v) = TMap.GenerateKeyArray m := by
  induction m with
  | nil => rfl
  | cons p rest ih =>
    obtain ⟨k0, v0⟩ := p
    unfold TMap.GenerateKeyArray at ih ⊢
    by_cases e : k0 = k
    · simp [TMap.Store, e]
    · simp [TMap.Store, e, ih]

theorem Find_Add (m : TMap) (k k1 : FName) (v : FStatData) :
    TMap.Find (TMap.Add m k v) k1 = if k = k1 then some v else TMap.Find m k1 := by
  induction m with
  | nil => simp [TMap.Add, TMap.Find]
  | cons p rest ih =>
    obtain ⟨k0, v0⟩ := p
    by_cases e : k0 = k
    · subst e
      by_cases e1 : k0 = k1
      · simp [TMap.Add, TMap.Find, e1]
      · simp [TMap.Add, TMap.Find, e1]
    · by_cases e1 : k0 = k1
      · subst e1
        have e2 : ¬ k = k0 := fun x => e x.symm
        simp [TMap.Add, TMap.Find, e, e2]
      · simp [TMap.Add, TMap.Find, e, e1, ih]

theorem Find_isSome_of_mem_keys (m : TMap) (k : FName)
    (h : k ∈ TMap.GenerateKeyArray m) : ∃ v, TMap.Find m k = some v := by
  induction m with
  | nil => simp [TMap.GenerateKeyArray] at h
  | cons p rest ih =>
    obtain ⟨k0, v0⟩ := p
    by_cases e : k0 = k
    · exact ⟨v0, by simp [TMap.Find, e]⟩
    · have h1 : k ∈ TMap.GenerateKeyArray rest := by
        simp only [TMap.GenerateKeyArray, List.map_cons, List.mem_cons] at h
        rcases h with h | h
        · exact absurd h.symm e
        · exact h
      obtain ⟨v, hv⟩ := ih h1
      exact ⟨v, by simp [TMap.Find, e, hv]⟩

theorem Find_of_mem_of_nodup (m : TMap) (k : FName) (v : FStatData)
    (hnd : (TMap.GenerateKeyArray m).Nodup) (h : (k, v) ∈ m) : TMap.Find m k = some v := by
  induction m with
  | nil => simp at h
  | cons p rest ih =>
    obtain ⟨k0, v0⟩ := p
    simp only [TMap.GenerateKeyArray, List.map_cons, List.nodup_cons] at hnd
    rcases List.mem_cons.mp h with h | h
    · cases h
      simp [TMap.Find]
    · have hk : k ∈ rest.map Prod.fst := List.mem_map.mpr ⟨(k, v), h, rfl⟩
      have e : ¬ k0 = k := fun x => hnd.1 (x ▸ hk)
      simp only [TMap.Find, e, if_false]
      exact ih hnd.2 h

/-! ## The component -/

open UStatsComponent

theorem StatTick_loop_total (L : List FName) (c : UStatsComponent)
    (h : ∀ n ∈ L, n ∈ TMap.GenerateKeyArray c.Stats) :
    ∃ c1, StatTick.loop L c = some c1 ∧ c1.OnStatChanged = c.OnStatChanged ∧
      TMap.GenerateKeyArray c1.Stats = TMap.GenerateKeyArray c.Stats := by
  induction L generalizing c with
  | nil => exact ⟨c, rfl, rfl, rfl⟩
  | cons a rest ih =>
    obtain ⟨w, hw⟩ := Find_isSome_of_mem_keys c.Stats a (h a (List.mem_cons_self a rest))
    have hk : TMap.GenerateKeyArray
        ({ c with Stats := TMap.Store c.Stats a w.StatTickUpdate } : UStatsComponent).Stats =
        TMap.GenerateKeyArray c.Stats := keys_Store _ _ _
    obtain ⟨c1, h1, h2, h3⟩ := ih { c with Stats := TMap.Store c.Stats a w.StatTickUpdate }
      (fun n hn => by rw [hk]; exact h n (List.mem_cons_of_mem a hn))
    refine ⟨c1, ?_, h2, h3.trans hk⟩
    simp only [StatTick.loop, GetStat, hw]
    exact h1

theorem ResetAllStats_loop_total (L : List FName) (c : UStatsComponent)
    (h : ∀ n ∈ L, n ∈ TMap.GenerateKeyArray c.Stats) :
    ∃ c1, ResetAllStats.loop L c = some c1 ∧ c1.OnStatChanged = c.OnStatChanged ∧
      TMap.GenerateKeyArray c1.Stats = TMap.GenerateKeyArray c.Stats := by
  induction L generalizing c with
  | nil => exact ⟨c, rfl, rfl, rfl⟩
  | cons a rest ih =>
    obtain ⟨w, hw⟩ := Find_isSome_of_mem_keys c.Stats a (h a (List.mem_cons_self a rest))
    have hk : TMap.GenerateKeyArray
        ({ c with Stats := TMap.Store c.Stats a w.ResetStat.2 } : UStatsComponent).Stats =
        TMap.GenerateKeyArray c.Stats := keys_Store _ _ _
    obtain ⟨c1, h1, h2, h3⟩ := ih { c with Stats := TMap.Store c.Stats a w.ResetStat.2 }
      (fun n hn => by rw [hk]; exact h n (List.mem_cons_of_mem a hn))
    refine ⟨c1, ?_, h2, h3.trans hk⟩
    simp only [ResetAllStats.loop, UStatsComponent.ResetStat, GetStat, hw]
    exact h1

/-- Broadcasts wherever a call has a result: when `StatName` is a key of the
map, `SetStatCurrentValue` returns the clamped value, stores it as the record's current value and appends exactly
one broadcast `(StatName, that value)` to `OnStatChanged`. `AddStatCurrentValue`
and `ResetStat` never change `OnStatChanged`, whatever their arguments, and
have a result on a registered name; `StatTick` and `ResetAllStats` always have
a result and leave `OnStatChanged` as it was. -/
theorem OnStatChanged_broadcasts (c : UStatsComponent) (StatName : FName) (v : ℚ)
    (Stat : FStatData) (h : GetStat c StatName = some Stat) :
    (∃ c1, SetStatCurrentValue c StatName v =
        some (FMath.Clamp v Stat.MinValue Stat.MaxValue, c1) ∧
      c1.OnStatChanged =
        c.OnStatChanged ++ [(StatName, FMath.Clamp v Stat.MinValue Stat.MaxValue)] ∧
      GetStatCurrentValue c1 StatName = some (FMath.Clamp v Stat.MinValue Stat.MaxValue)) ∧
    (∀ n d out, AddStatCurrentValue c n d = some out →
      out.2.OnStatChanged = c.OnStatChanged) ∧
    (∀ d, ∃ out, AddStatCurrentValue c StatName d = some out) ∧
    (∀ n out, UStatsComponent.ResetStat c n = some out →
      out.2.OnStatChanged = c.OnStatChanged) ∧
    (∃ out, UStatsComponent.ResetStat c StatName = some out) ∧
    (∃ c1, StatTick c = some c1 ∧ c1.OnStatChanged = c.OnStatChanged) ∧
    (∃ c1, ResetAllStats c = some c1 ∧ c1.OnStatChanged = c.OnStatChanged) := by
  unfold GetStat at h
  refine ⟨?_, ?_, ?_, ?_, ?_, ?_, ?_⟩
  · refine ⟨{ c with
        Stats := TMap.Store c.Stats StatName (Stat.SetCurrentValue v).2,
        OnStatChanged :=
          c.OnStatChanged ++ [(StatName, FMath.Clamp v Stat.MinValue Stat.MaxValue)] },
      ?_, rfl, ?_⟩
    · simp only [SetStatCurrentValue, GetStat, h]
      rfl
    · simp only [GetStatCurrentValue, GetStat]
      rw [Find_Store_self _ _ _ _ h]
      rfl
  · intro n d out ho
    unfold AddStatCurrentValue GetStat at ho
    cases hf : TMap.Find c.Stats n with
    | none => simp [hf] at ho
    | some w =>
      simp only [hf, Option.some.injEq] at ho
      rw [← ho]
  · intro d
    exact ⟨_, by simp only [AddStatCurrentValue, GetStat, h]; rfl⟩
  · intro n out ho
    unfold UStatsComponent.ResetStat GetStat at ho
    cases hf : TMap.Find c.Stats n with
    | none => simp [hf] at ho
    | some w =>
      simp only [hf, Option.some.injEq] at ho
      rw [← ho]
  · exact ⟨_, by simp only [UStatsComponent.ResetStat, GetStat, h]; rfl⟩
  · obtain ⟨c1, h1, h2, _⟩ := StatTick_loop_total (TMap.GenerateKeyArray c.Stats) c
      (fun _ hn => hn)
    exact ⟨c1, h1, h2⟩
  · obtain ⟨c1, h1, h2, _⟩ := ResetAllStats_loop_total (TMap.GenerateKeyArray c.Stats) c
      (fun _ hn => hn)
    exact ⟨c1, h1, h2⟩

theorem OnStatChanged_broadcasts_witness :
    ∃ c1, SetStatCurrentValue scenario "Health" (-10) = some (0, c1) ∧
      c1.OnStatChanged = [("Health", 0)] ∧ GetStatCurrentValue c1 "Health" = some 0 := by
  have w := (OnStatChanged_broadcasts scenario "Health" (-10) (FStatData.ctor4 100 0 100 0)
    (by decide)).1
  have e : FMath.Clamp (-10) (FStatData.ctor4 100 0 100 0).MinValue
      (FStatData.ctor4 100 0 100 0).MaxValue = 0 := by decide
  rw [e] at w
  exact w

/-- C5 at a concrete input: on a component that holds only `Health`, every
per-stat function called with `Mana` dereferences the null pointer that `Find`
returned, so none of them has a defined result; in particular there is no
returned `0.0` or `false`. -/
theorem unregistered_name_null_dereference :
    GetStat scenario "Mana" = none ∧
    GetStatCurrentValue scenario "Mana" = none ∧
    SetStatCurrentValue scenario "Mana" 1 = none ∧
    AddStatCurrentValue scenario "Mana" 1 = none ∧
    GetStatBaseValue scenario "Mana" = none ∧
    SetStatBaseValue scenario "Mana" 1 = none ∧
    GetStatChangePerTickValue scenario "Mana" = none ∧
    IsStatChangingPerTick scenario "Mana" = none ∧
    SetStatChangePerTickValue scenario "Mana" 1 = none ∧
    GetStatMinValue scenario "Mana" = none ∧
    SetStatMinValue scenario "Mana" 1 = none ∧
    GetStatMaxValue scenario "Mana" = none ∧
    SetStatMaxValue scenario "Mana" 1 = none ∧
    UStatsComponent.ResetStat scenario "Mana" = none := by
  decide

theorem InitStats_loop_spec (t : UDataTable) (L : List FName) (c : UStatsComponent)
    (h : ∀ n ∈ L, ∃ r, t.FindRow n = some r) :
    ∃ c1, InitStats.loop t L c = some c1 ∧
      ∀ n, TMap.Find c1.Stats n =
        if n ∈ L then (t.FindRow n).map (fun r => (r.SetCurrentValue r.GetBaseValue).2)
        else TMap.Find c.Stats n := by
  induction L generalizing c with
  | nil => exact ⟨c, rfl, fun n => by simp⟩
  | cons a rest ih =>
    obtain ⟨r, hr⟩ := h a (List.mem_cons_self a rest)
    obtain ⟨c1, h1, h2⟩ :=
      ih { c with Stats := TMap.Add c.Stats a (r.SetCurrentValue r.GetBaseValue).2 }
        (fun n hn => h n (List.mem_cons_of_mem a hn))
    refine ⟨c1, ?_, ?_⟩
    · simp only [InitStats.loop, hr]
      exact h1
    · intro n
      rw [h2 n]
      by_cases hn : n ∈ rest
      · simp [hn]
      · simp only [hn, if_false, Find_Add, List.mem_cons, or_false]
        by_cases e : a = n
        · subst e
          simp [hr]
        · have e1 : ¬ n = a := fun x => e x.symm
          simp [e, e1]

/-- C6 as stated fails: for the one-row table `Health ↦ (base 200, min 0,
max 100)`, `InitStats` stores a record whose base value is 200 and whose
current value is 100, the base value clamped by `SetCurrentValue`. -/
theorem InitStats_current_ne_base :
    ∃ c1, InitStats (withTable [("Health", FStatData.mk 200 0 100 0 0)]) = some c1 ∧
      GetStatCurrentValue c1 "Health" = some 100 ∧
      GetStatBaseValue c1 "Health" = some 200 ∧
      GetStatCurrentValue c1 "Health" ≠ GetStatBaseValue c1 "Health" :=
  ⟨_, rfl, by decide, by decide, by decide⟩

/-- C6, amended: after `InitStats` on a table whose row names are distinct,
for every row `(name, row)` the map contains `name`, and its record has the
row's base value, bounds and change per tick, and as current value the row's
base value clamped to the row's `[MinValue, MaxValue]`; that is the base value
itself whenever `MinValue ≤ BaseValue ≤ MaxValue`, and then
`GetStatCurrentValue name = GetStatBaseValue name`. -/
theorem InitStats_rows (c : UStatsComponent) (t : UDataTable)
    (hc : c.StatsDataTable = some t) (hnd : t.GetRowNames.Nodup) :
    ∃ c1, InitStats c = some c1 ∧
      ∀ name row, (name, row) ∈ t.RowMap →
        GetStat c1 name = some { row with
          CurrentValue := FMath.Clamp row.BaseValue row.MinValue row.MaxValue } ∧
        GetStatBaseValue c1 name = some row.BaseValue ∧
        (row.MinValue ≤ row.BaseValue → row.BaseValue ≤ row.MaxValue →
          GetStatCurrentValue c1 name = some row.BaseValue ∧
          GetStatCurrentValue c1 name = GetStatBaseValue c1 name) := by
  have hfind : ∀ n ∈ t.GetRowNames, ∃ r, t.FindRow n = some r :=
    fun n hn => Find_isSome_of_mem_keys t.RowMap n hn
  obtain ⟨c1, h1, h2⟩ := InitStats_loop_spec t t.GetRowNames c hfind
  refine ⟨c1, by simp only [InitStats, hc]; exact h1, ?_⟩
  intro name row hmem
  have hrow : t.FindRow name = some row := Find_of_mem_of_nodup t.RowMap name row hnd hmem
  have hin : name ∈ t.GetRowNames := List.mem_map.mpr ⟨(name, row), hmem, rfl⟩
  have hget : GetStat c1 name = some { row with
      CurrentValue := FMath.Clamp row.BaseValue row.MinValue row.MaxValue } := by
    unfold GetStat
    rw [h2 name]
    simp only [hin, if_true, hrow, Option.map_some']
    rfl
  refine ⟨hget, ?_, ?_⟩
  · simp only [GetStatBaseValue, hget]
    rfl
  · intro hlo hhi
    have hcur : GetStatCurrentValue c1 name = some row.BaseValue := by
      simp only [GetStatCurrentValue, hget, FStatData.GetCurrentValue]
      rw [clamp_id _ _ _ hlo hhi]
    refine ⟨hcur, ?_⟩
    rw [hcur]
    simp only [GetStatBaseValue, hget]
    rfl

theorem InitStats_rows_witness :
    ∃ c1, InitStats (withTable [("Health", FStatData.mk 100 0 100 0 0),
        ("Stamina", FStatData.mk 50 0 100 0 5)]) = some c1 ∧
      GetStat c1 "Stamina" = some (FStatData.mk 50 0 100 50 5) ∧
      GetStatCurrentValue c1 "Stamina" = GetStatBaseValue c1 "Stamina" := by
  obtain ⟨c1, h1, h2⟩ := InitStats_rows
    (withTable [("Health", FStatData.mk 100 0 100 0 0), ("Stamina", FStatData.mk 50 0 100 0 5)])
    { RowMap := [("Health", FStatData.mk 100 0 100 0 0), ("Stamina", FStatData.mk 50 0 100 0 5)] }
    rfl (by decide)
  have w := h2 "Stamina" (FStatData.mk 50 0 100 0 5) (by decide)
  refine ⟨c1, h1, ?_, (w.2.2 (by decide) (by decide)).2⟩
  rw [w.1]
  decide

/-! ## Bulk operations -/

theorem Find_none_of_not_mem_keys (m : TMap) (k : FName)
    (h : k ∉ TMap.GenerateKeyArray m) : TMap.Find m k = none := by
  induction m with
  | nil => rfl
  | cons p rest ih =>
    obtain ⟨k0, v0⟩ := p
    simp only [TMap.GenerateKeyArray, List.map_cons, List.mem_cons, not_or] at h
    have e : ¬ k0 = k := fun x => h.1 x.symm
    simp only [TMap.Find, e, if_false]
    exact ih h.2

theorem TMap_ext (m1 m2 : TMap) (hk : TMap.GenerateKeyArray m1 = TMap.GenerateKeyArray m2)
    (hnd : (TMap.GenerateKeyArray m1).Nodup)
    (hf : ∀ n, TMap.Find m1 n = TMap.Find m2 n) : m1 = m2 := by
  induction m1 generalizing m2 with
  | nil =>
    cases m2 with
    | nil => rfl
    | cons q r2 => simp [TMap.GenerateKeyArray] at hk
  | cons p r1 ih =>
    cases m2 with
    | nil => simp [TMap.GenerateKeyArray] at hk
    | cons q r2 =>
      obtain ⟨k1, v1⟩ := p
      obtain ⟨k2, v2⟩ := q
      simp only [TMap.GenerateKeyArray, List.map_cons, List.cons.injEq] at hk
      obtain ⟨hk1, hk2⟩ := hk
      subst hk1
      simp only [TMap.GenerateKeyArray, List.map_cons, List.nodup_cons] at hnd
      have hv : v1 = v2 := by
        have := hf k1
        simpa [TMap.Find] using this
      subst hv
      have hrest : r1 = r2 := by
        apply ih r2 hk2 hnd.2
        intro n
        by_cases e : k1 = n
        · subst e
          rw [Find_none_of_not_mem_keys r1 k1 hnd.1,
            Find_none_of_not_mem_keys r2 k1 (by
              have : TMap.GenerateKeyArray r2 = List.map Prod.fst r1 := hk2.symm
              rw [this]; exact hnd.1)]
        · have := hf n
          simpa [TMap.Find, e] using this
      rw [hrest]

theorem StatTick_loop_spec (L : List FName) (c : UStatsComponent) (hnd : L.Nodup)
    (h : ∀ n ∈ L, n ∈ TMap.GenerateKeyArray c.Stats) :
    ∃ c1, StatTick.loop L c = some c1 ∧ c1.StatsDataTable = c.StatsDataTable ∧
      c1.bPrintStats = c.bPrintStats ∧ c1.OnStatChanged = c.OnStatChanged ∧
      TMap.GenerateKeyArray c1.Stats = TMap.GenerateKeyArray c.Stats ∧
      ∀ n, TMap.Find c1.Stats n =
        if n ∈ L then (TMap.Find c.Stats n).map FStatData.StatTickUpdate
        else TMap.Find c.Stats n := by
  induction L generalizing c with
  | nil => exact ⟨c, rfl, rfl, rfl, rfl, rfl, fun n => by simp⟩
  | cons a rest ih =>
    obtain ⟨w, hw⟩ := Find_isSome_of_mem_keys c.Stats a (h a (List.mem_cons_self a rest))
    obtain ⟨ha, hrest⟩ := List.nodup_cons.mp hnd
    have hk : TMap.GenerateKeyArray
        ({ c with Stats := TMap.Store c.Stats a w.StatTickUpdate } : UStatsComponent).Stats =
        TMap.GenerateKeyArray c.Stats := keys_Store _ _ _
    obtain ⟨c1, h1, h2, h3, h4, h5, h6⟩ :=
      ih { c with Stats := TMap.Store c.Stats a w.StatTickUpdate } hrest
        (fun n hn => by rw [hk]; exact h n (List.mem_cons_of_mem a hn))
    refine ⟨c1, ?_, h2, h3, h4, h5.trans hk, ?_⟩
    · simp only [StatTick.loop, GetStat, hw]
      exact h1
    · intro n
      rw [h6 n]
      by_cases hn : n ∈ rest
      · have e : n ≠ a := fun x => ha (x ▸ hn)
        simp only [hn, if_true, List.mem_cons, or_true]
        rw [Find_Store_other _ _ _ _ e]
      · by_cases e : n = a
        · subst e
          simp only [hn, if_false, List.mem_cons, true_or, if_true]
          rw [Find_Store_self _ _ _ _ hw, hw]
          rfl
        · simp only [hn, if_false, List.mem_cons, e, or_self]
          exact Find_Store_other _ _ _ _ e

theorem ResetAllStats_loop_spec (L : List FName) (c : UStatsComponent) (hnd : L.Nodup)
    (h : ∀ n ∈ L, n ∈ TMap.GenerateKeyArray c.Stats) :
    ∃ c1, ResetAllStats.loop L c = some c1 ∧ c1.StatsDataTable = c.StatsDataTable ∧
      c1.bPrintStats = c.bPrintStats ∧ c1.OnStatChanged = c.OnStatChanged ∧
      TMap.GenerateKeyArray c1.Stats = TMap.GenerateKeyArray c.Stats ∧
      ∀ n, TMap.Find c1.Stats n =
        if n ∈ L then (TMap.Find c.Stats n).map (fun w => w.ResetStat.2)
        else TMap.Find c.Stats n := by
  induction L generalizing c with
  | nil => exact ⟨c, rfl, rfl, rfl, rfl, rfl, fun n => by simp⟩
  | cons a rest ih =>
    obtain ⟨w, hw⟩ := Find_isSome_of_mem_keys c.Stats a (h a (List.mem_cons_self a rest))
    obtain ⟨ha, hrest⟩ := List.nodup_cons.mp hnd
    have hk : TMap.GenerateKeyArray
        ({ c with Stats := TMap.Store c.Stats a w.ResetStat.2 } : UStatsComponent).Stats =
        TMap.GenerateKeyArray c.Stats := keys_Store _ _ _
    obtain ⟨c1, h1, h2, h3, h4, h5, h6⟩ :=
      ih { c with Stats := TMap.Store c.Stats a w.ResetStat.2 } hrest
        (fun n hn => by rw [hk]; exact h n (List.mem_cons_of_mem a hn))
    refine ⟨c1, ?_, h2, h3, h4, h5.trans hk, ?_⟩
    · simp only [ResetAllStats.loop, UStatsComponent.ResetStat, GetStat, hw]
      exact h1
    · intro n
      rw [h6 n]
      by_cases hn : n ∈ rest
      · have e : n ≠ a := fun x => ha (x ▸ hn)
        simp only [hn, if_true, List.mem_cons, or_true]
        rw [Find_Store_other _ _ _ _ e]
      · by_cases e : n = a
        · subst e
          simp only [hn, if_false, List.mem_cons, true_or, if_true]
          rw [Find_Store_self _ _ _ _ hw, hw]
          rfl
        · simp only [hn, if_false, List.mem_cons, e, or_self]
          exact Find_Store_other _ _ _ _ e

theorem component_ext (c1 c2 : UStatsComponent) (h1 : c1.Stats = c2.Stats)
    (h2 : c1.StatsDataTable = c2.StatsDataTable) (h3 : c1.bPrintStats = c2.bPrintStats)
    (h4 : c1.OnStatChanged = c2.OnStatChanged) : c1 = c2 := by
  cases c1
  cases c2
  simp only at h1 h2 h3 h4
  simp [h1, h2, h3, h4]

theorem StatTick_loop_perm (L : List FName) (c : UStatsComponent)
    (hnd : (TMap.GenerateKeyArray c.Stats).Nodup)
    (hp : L.Perm (TMap.GenerateKeyArray c.Stats)) :
    ∃ c1, StatTick.loop L c = some c1 ∧ c1.StatsDataTable = c.StatsDataTable ∧
      c1.bPrintStats = c.bPrintStats ∧ c1.OnStatChanged = c.OnStatChanged ∧
      TMap.GenerateKeyArray c1.Stats = TMap.GenerateKeyArray c.Stats ∧
      ∀ n, TMap.Find c1.Stats n = (TMap.Find c.Stats n).map FStatData.StatTickUpdate := by
  obtain ⟨c1, h1, h2, h3, h4, h5, h6⟩ :=
    StatTick_loop_spec L c (hp.nodup_iff.mpr hnd) (fun n hn => hp.mem_iff.mp hn)
  refine ⟨c1, h1, h2, h3, h4, h5, ?_⟩
  intro n
  rw [h6 n]
  by_cases hn : n ∈ L
  · simp [hn]
  · have : n ∉ TMap.GenerateKeyArray c.Stats := fun x => hn (hp.mem_iff.mpr x)
    simp [hn, Find_none_of_not_mem_keys _ _ this]

/-- C11: on a map with distinct keys, `StatTick` returns, leaves the key array
and every other member of the component as they were, and the record stored
under every name is `StatTickUpdate` of the record stored there before (no
record where there was none). Visiting the keys in any other order gives the
same component. -/
theorem StatTick_maps_StatTickUpdate (c : UStatsComponent)
    (hnd : (TMap.GenerateKeyArray c.Stats).Nodup) :
    (∃ c1, StatTick c = some c1 ∧
      TMap.GenerateKeyArray c1.Stats = TMap.GenerateKeyArray c.Stats ∧
      (∀ n, GetStat c1 n = (GetStat c n).map FStatData.StatTickUpdate) ∧
      c1.StatsDataTable = c.StatsDataTable ∧ c1.bPrintStats = c.bPrintStats ∧
      c1.OnStatChanged = c.OnStatChanged) ∧
    (∀ L : List FName, L.Perm (TMap.GenerateKeyArray c.Stats) →
      StatTick.loop L c = StatTick c) := by
  obtain ⟨c1, h1, h2, h3, h4, h5, h6⟩ :=
    StatTick_loop_perm (TMap.GenerateKeyArray c.Stats) c hnd (List.Perm.refl _)
  refine ⟨⟨c1, h1, h5, h6, h2, h3, h4⟩, ?_⟩
  intro L hp
  obtain ⟨c2, g1, g2, g3, g4, g5, g6⟩ := StatTick_loop_perm L c hnd hp
  have e : c2 = c1 := by
    apply component_ext
    · apply TMap_ext _ _ (g5.trans h5.symm) (g5 ▸ hnd)
      intro n
      rw [g6 n, h6 n]
    · rw [g2, h2]
    · rw [g3, h3]
    · rw [g4, h4]
  rw [g1, e]
  exact h1.symm

theorem StatTick_maps_StatTickUpdate_witness :
    (∃ c1, StatTick scenario = some c1 ∧
      GetStat c1 "Stamina" = some (FStatData.mk 50 0 100 55 5) ∧
      GetStat c1 "Health" = some (FStatData.mk 100 0 100 100 0)) ∧
    StatTick.loop ["Stamina", "Health"] scenario = StatTick scenario := by
  have w := StatTick_maps_StatTickUpdate scenario (by decide)
  obtain ⟨⟨c1, h1, _, h3, _⟩, hperm⟩ := w
  refine ⟨⟨c1, h1, ?_, ?_⟩, hperm _ (by decide)⟩
  · rw [h3 "Stamina",
      show GetStat scenario "Stamina" = some (FStatData.ctor4 50 0 100 5) from by decide]
    norm_num [FStatData.StatTickUpdate, FStatData.IsChangingPerTick,
      FStatData.GetChangePerTick, FStatData.AddCurrentValue, FStatData.SetCurrentValue,
      FStatData.ctor4, FMath.Clamp]
  · rw [h3 "Health"]; decide

/-- C12: `IsChangingPerTick` is true exactly when `ChangePerTick` is not 0;
`StatTickUpdate` leaves the whole record as it was when `ChangePerTick` is 0,
and otherwise gives exactly the record that `AddCurrentValue(ChangePerTick)`
gives. -/
theorem StatTickUpdate_cases (s : FStatData) :
    (s.IsChangingPerTick = true ↔ s.ChangePerTick ≠ 0) ∧
    (s.ChangePerTick = 0 → s.StatTickUpdate = s) ∧
    (s.ChangePerTick ≠ 0 → s.StatTickUpdate = (s.AddCurrentValue s.ChangePerTick).2) := by
  refine ⟨?_, ?_, ?_⟩
  · simp [FStatData.IsChangingPerTick, FStatData.GetChangePerTick]
  · intro h
    simp [FStatData.StatTickUpdate, FStatData.IsChangingPerTick, FStatData.GetChangePerTick, h]
  · intro h
    simp [FStatData.StatTickUpdate, FStatData.IsChangingPerTick, FStatData.GetChangePerTick, h]

theorem StatTickUpdate_cases_witness :
    (FStatData.ctor4 100 0 100 0).StatTickUpdate = FStatData.ctor4 100 0 100 0 ∧
    (FStatData.ctor4 50 0 100 5).StatTickUpdate =
      ((FStatData.ctor4 50 0 100 5).AddCurrentValue 5).2 :=
  ⟨(StatTickUpdate_cases (FStatData.ctor4 100 0 100 0)).2.1 (by decide),
   (StatTickUpdate_cases (FStatData.ctor4 50 0 100 5)).2.2 (by decide)⟩

/-- C13: on a map with distinct keys, `ResetAllStats` returns, leaves the key
array and every other member of the component as they were, and the record
stored under every name is the record stored there before with its current
value replaced by its base value clamped to its `[MinValue, MaxValue]`.
`ResetAllStats` on the result returns the result itself. -/
theorem ResetAllStats_resets (c : UStatsComponent)
    (hnd : (TMap.GenerateKeyArray c.Stats).Nodup) :
    ∃ c1, ResetAllStats c = some c1 ∧
      TMap.GenerateKeyArray c1.Stats = TMap.GenerateKeyArray c.Stats ∧
      (∀ n, GetStat c1 n = (GetStat c n).map (fun w => { w with
        CurrentValue := FMath.Clamp w.BaseValue w.MinValue w.MaxValue })) ∧
      c1.StatsDataTable = c.StatsDataTable ∧ c1.bPrintStats = c.bPrintStats ∧
      c1.OnStatChanged = c.OnStatChanged ∧
      ResetAllStats c1 = some c1 := by
  have pointwise : ∀ (d : UStatsComponent), (TMap.GenerateKeyArray d.Stats).Nodup →
      ∃ d1, ResetAllStats d = some d1 ∧ d1.StatsDataTable = d.StatsDataTable ∧
        d1.bPrintStats = d.bPrintStats ∧ d1.OnStatChanged = d.OnStatChanged ∧
        TMap.GenerateKeyArray d1.Stats = TMap.GenerateKeyArray d.Stats ∧
        ∀ n, TMap.Find d1.Stats n = (TMap.Find d.Stats n).map (fun w => w.ResetStat.2) := by
    intro d hd
    obtain ⟨d1, h1, h2, h3, h4, h5, h6⟩ :=
      ResetAllStats_loop_spec (TMap.GenerateKeyArray d.Stats) d hd (fun _ hn => hn)
    refine ⟨d1, h1, h2, h3, h4, h5, ?_⟩
    intro n
    rw [h6 n]
    by_cases hn : n ∈ TMap.GenerateKeyArray d.Stats
    · simp [hn]
    · simp [hn, Find_none_of_not_mem_keys _ _ hn]
  obtain ⟨c1, h1, h2, h3, h4, h5, h6⟩ := pointwise c hnd
  obtain ⟨c2, g1, g2, g3, g4, g5, g6⟩ := pointwise c1 (h5 ▸ hnd)
  refine ⟨c1, h1, h5, h6, h2, h3, h4, ?_⟩
  have e : c2 = c1 := by
    apply component_ext _ _ _ g2 g3 g4
    apply TMap_ext _ _ g5 (g5 ▸ h5 ▸ hnd)
    intro n
    rw [g6 n, h6 n]
    cases TMap.Find c.Stats n with
    | none => rfl
    | some w => rfl
  rw [g1, e]

theorem ResetAllStats_resets_witness :
    ∃ c1, ResetAllStats { scenario with
        Stats := [("Health", FStatData.mk 100 0 100 30 0), ("Stamina", FStatData.mk 50 0 100 75 5)] }
        = some c1 ∧
      GetStat c1 "Health" = some (FStatData.mk 100 0 100 100 0) ∧
      GetStat c1 "Stamina" = some (FStatData.mk 50 0 100 50 5) ∧
      ResetAllStats c1 = some c1 := by
  obtain ⟨c1, h1, _, h3, _, _, _, h7⟩ := ResetAllStats_resets { scenario with
    Stats := [("Health", FStatData.mk 100 0 100 30 0), ("Stamina", FStatData.mk 50 0 100 75 5)] }
    (by decide)
  refine ⟨c1, h1, ?_, ?_, h7⟩
  · rw [h3 "Health"]; decide
  · rw [h3 "Stamina"]; decide

/-- C15: `InitStats` on a component whose data table is absent returns the
component exactly as it was, so nothing is registered and nothing is
broadcast; for a component that starts with the empty map of a freshly
constructed one, the map is still empty afterwards. A freshly constructed
component has no data table. -/
theorem InitStats_absent_table (c : UStatsComponent) (h : c.StatsDataTable = none) :
    InitStats c = some c ∧ BeginPlay c = some c ∧
    UStatsComponent.ctor.StatsDataTable = none ∧
    (c.Stats = UStatsComponent.ctor.Stats →
      ∃ c1, InitStats c = some c1 ∧ TMap.GenerateKeyArray c1.Stats = [] ∧
        c1.OnStatChanged = c.OnStatChanged) := by
  have e : InitStats c = some c := by simp only [InitStats, h]
  refine ⟨e, e, rfl, fun hs => ⟨c, e, ?_, rfl⟩⟩
  rw [hs]
  rfl

theorem InitStats_absent_table_witness :
    InitStats UStatsComponent.ctor = some UStatsComponent.ctor ∧
    ∃ c1, InitStats UStatsComponent.ctor = some c1 ∧ TMap.GenerateKeyArray c1.Stats = [] ∧
      c1.OnStatChanged = UStatsComponent.ctor.OnStatChanged :=
  ⟨(InitStats_absent_table UStatsComponent.ctor rfl).1,
   (InitStats_absent_table UStatsComponent.ctor rfl).2.2.2 rfl⟩

/-- C17: `SetMinValue` and `SetMaxValue` leave `BaseValue` and `ChangePerTick`
as they were. For the record `FStatData(80, 0, 100, 0)` and `SetMaxValue(50)`
the base value 80 then lies outside `[0, 50]`, and the value a following
`ResetStat` writes to `CurrentValue`, 50, is not the stored base value. -/
theorem SetMinValue_SetMaxValue_keep_base :
    (∀ (s : FStatData) (b : ℚ),
      (s.SetMinValue b).2.BaseValue = s.BaseValue ∧
      (s.SetMinValue b).2.ChangePerTick = s.ChangePerTick ∧
      (s.SetMaxValue b).2.BaseValue = s.BaseValue ∧
      (s.SetMaxValue b).2.ChangePerTick = s.ChangePerTick) ∧
    (((FStatData.ctor4 80 0 100 0).SetMaxValue 50).2.BaseValue = 80 ∧
      ((FStatData.ctor4 80 0 100 0).SetMaxValue 50).2.MaxValue = 50 ∧
      ¬ (((FStatData.ctor4 80 0 100 0).SetMaxValue 50).2.BaseValue ≤
          ((FStatData.ctor4 80 0 100 0).SetMaxValue 50).2.MaxValue) ∧
      ((FStatData.ctor4 80 0 100 0).SetMaxValue 50).2.ResetStat.2.CurrentValue = 50 ∧
      ((FStatData.ctor4 80 0 100 0).SetMaxValue 50).2.ResetStat.2.CurrentValue ≠
        ((FStatData.ctor4 80 0 100 0).SetMaxValue 50).2.BaseValue) := by
  refine ⟨fun s b => ⟨rfl, rfl, rfl, rfl⟩, ?_⟩
  decide

/-- C18: on a record with `MinValue ≤ MaxValue`, writing back the value that
`SetCurrentValue v` returned returns and stores the same again;
`v ≤ w` gives `SetCurrentValue v ≤ SetCurrentValue w`; and on a record whose
current value is in range, `SetCurrentValue(GetCurrentValue())` returns the
current value and leaves the record as it was. -/
theorem SetCurrentValue_idempotent_monotone (s : FStatData) (v w : ℚ)
    (h : s.MinValue ≤ s.MaxValue) :
    (s.SetCurrentValue v).2.SetCurrentValue (s.SetCurrentValue v).1 = s.SetCurrentValue v ∧
    (v ≤ w → (s.SetCurrentValue v).1 ≤ (s.SetCurrentValue w).1) ∧
    (s.InRange → s.SetCurrentValue s.GetCurrentValue = (s.CurrentValue, s)) := by
  refine ⟨?_, ?_, ?_⟩
  · have e : FMath.Clamp (FMath.Clamp v s.MinValue s.MaxValue) s.MinValue s.MaxValue =
        FMath.Clamp v s.MinValue s.MaxValue :=
      clamp_id _ _ _ (clamp_ge _ _ _) (clamp_le _ _ _ h)
    simp only [FStatData.SetCurrentValue, e]
  · intro hvw
    show FMath.Clamp v s.MinValue s.MaxValue ≤ FMath.Clamp w s.MinValue s.MaxValue
    unfold FMath.Clamp
    exact max_le_max (min_le_min hvw le_rfl) le_rfl
  · rintro ⟨h1, h2⟩
    have e : FMath.Clamp s.CurrentValue s.MinValue s.MaxValue = s.CurrentValue :=
      clamp_id _ _ _ h1 h2
    simp only [FStatData.SetCurrentValue, FStatData.GetCurrentValue, e]

theorem SetCurrentValue_idempotent_monotone_witness :
    ((FStatData.ctor.SetCurrentValue 250).2.SetCurrentValue (FStatData.ctor.SetCurrentValue 250).1
      = FStatData.ctor.SetCurrentValue 250) ∧
    (FStatData.ctor.SetCurrentValue 30).1 ≤ (FStatData.ctor.SetCurrentValue 250).1 ∧
    FStatData.ctor.SetCurrentValue FStatData.ctor.GetCurrentValue =
      (FStatData.ctor.CurrentValue, FStatData.ctor) :=
  ⟨(SetCurrentValue_idempotent_monotone FStatData.ctor 250 250 (by decide)).1,
   (SetCurrentValue_idempotent_monotone FStatData.ctor 30 250 (by decide)).2.1 (by decide),
   (SetCurrentValue_idempotent_monotone FStatData.ctor 0 0 (by decide)).2.2
     (by unfold FStatData.InRange; decide)⟩

/-! ## Per-stat mutators

Each mutator looks the record up, applies the record's operation and writes
the record back under the same name. -/

theorem store_map_frame (c : UStatsComponent) (n : FName) (r : FStatData → ℚ)
    (g : FStatData → FStatData) (l : FStatData → List (FName × ℚ))
    (out : ℚ × UStatsComponent)
    (h : (GetStat c n).map (fun w => (r w, ({ c with
      Stats := TMap.Store c.Stats n (g w), OnStatChanged := l w } : UStatsComponent))) =
      some out) :
    TMap.GenerateKeyArray out.2.Stats = TMap.GenerateKeyArray c.Stats ∧
    ∀ b, b ≠ n → GetStat out.2 b = GetStat c b := by
  cases hf : GetStat c n with
  | none => simp [hf] at h
  | some w =>
    simp only [hf, Option.map_some', Option.some.injEq] at h
    rw [← h]
    exact ⟨keys_Store _ _ _, fun b hb => Find_Store_other _ _ _ _ hb⟩

theorem store_map_self (c : UStatsComponent) (n : FName) (r : FStatData → ℚ)
    (g : FStatData → FStatData) (l : FStatData → List (FName × ℚ)) (w : FStatData)
    (h : GetStat c n = some w) :
    ∃ c1, (GetStat c n).map (fun w => (r w, ({ c with
        Stats := TMap.Store c.Stats n (g w), OnStatChanged := l w } : UStatsComponent))) =
        some (r w, c1) ∧
      GetStat c1 n = some (g w) := by
  refine ⟨_, by rw [h]; rfl, ?_⟩
  exact Find_Store_self _ _ _ _ h

theorem SetStatCurrentValue_eq (c : UStatsComponent) (n : FName) (v : ℚ) :
    SetStatCurrentValue c n v = (GetStat c n).map (fun w => ((w.SetCurrentValue v).1, ({ c with
      Stats := TMap.Store c.Stats n (w.SetCurrentValue v).2,
      OnStatChanged := c.OnStatChanged ++ [(n, (w.SetCurrentValue v).1)] } : UStatsComponent))) := by
  unfold SetStatCurrentValue
  cases GetStat c n <;> rfl

theorem AddStatCurrentValue_eq (c : UStatsComponent) (n : FName) (v : ℚ) :
    AddStatCurrentValue c n v = (GetStat c n).map (fun w => ((w.AddCurrentValue v).1, ({ c with
      Stats := TMap.Store c.Stats n (w.AddCurrentValue v).2,
      OnStatChanged := c.OnStatChanged } : UStatsComponent))) := by
  unfold AddStatCurrentValue
  cases GetStat c n <;> rfl

theorem SetStatBaseValue_eq (c : UStatsComponent) (n : FName) (v : ℚ) :
    SetStatBaseValue c n v = (GetStat c n).map (fun w => ((w.SetBaseValue v).1, ({ c with
      Stats := TMap.Store c.Stats n (w.SetBaseValue v).2,
      OnStatChanged := c.OnStatChanged } : UStatsComponent))) := by
  unfold SetStatBaseValue
  cases GetStat c n <;> rfl

theorem SetStatChangePerTickValue_eq (c : UStatsComponent) (n : FName) (v : ℚ) :
    SetStatChangePerTickValue c n v = (GetStat c n).map (fun w => ((w.SetChangePerTickValue v).1, ({ c with
      Stats := TMap.Store c.Stats n (w.SetChangePerTickValue v).2,
      OnStatChanged := c.OnStatChanged } : UStatsComponent))) := by
  unfold SetStatChangePerTickValue
  cases GetStat c n <;> rfl

theorem SetStatMinValue_eq (c : UStatsComponent) (n : FName) (v : ℚ) :
    SetStatMinValue c n v = (GetStat c n).map (fun w => ((w.SetMinValue v).1, ({ c with
      Stats := TMap.Store c.Stats n (w.SetMinValue v).2,
      OnStatChanged := c.OnStatChanged } : UStatsComponent))) := by
  unfold SetStatMinValue
  cases GetStat c n <;> rfl

theorem SetStatMaxValue_eq (c : UStatsComponent) (n : FName) (v : ℚ) :
    SetStatMaxValue c n v = (GetStat c n).map (fun w => ((w.SetMaxValue v).1, ({ c with
      Stats := TMap.Store c.Stats n (w.SetMaxValue v).2,
      OnStatChanged := c.OnStatChanged } : UStatsComponent))) := by
  unfold SetStatMaxValue
  cases GetStat c n <;> rfl

theorem ResetStat_eq (c : UStatsComponent) (n : FName) :
    UStatsComponent.ResetStat c n = (GetStat c n).map (fun w => ((w.ResetStat).1, ({ c with
      Stats := TMap.Store c.Stats n (w.ResetStat).2,
      OnStatChanged := c.OnStatChanged } : UStatsComponent))) := by
  unfold UStatsComponent.ResetStat
  cases GetStat c n <;> rfl

/-- The key array is preserved wherever a call has a result: whatever the
name, every result of a mutator has the key array the component had before;
on a registered name each mutator has a result; `StatTick` and
`ResetAllStats` always have a result, with the same key array. The accessors
return a value only. -/
theorem registered_names_unchanged (c : UStatsComponent) (n : FName) (v : ℚ) :
    ((∀ out, SetStatCurrentValue c n v = some out →
        TMap.GenerateKeyArray out.2.Stats = TMap.GenerateKeyArray c.Stats) ∧
      (n ∈ TMap.GenerateKeyArray c.Stats → ∃ out, SetStatCurrentValue c n v = some out)) ∧
    ((∀ out, AddStatCurrentValue c n v = some out →
        TMap.GenerateKeyArray out.2.Stats = TMap.GenerateKeyArray c.Stats) ∧
      (n ∈ TMap.GenerateKeyArray c.Stats → ∃ out, AddStatCurrentValue c n v = some out)) ∧
    ((∀ out, SetStatBaseValue c n v = some out →
        TMap.GenerateKeyArray out.2.Stats = TMap.GenerateKeyArray c.Stats) ∧
      (n ∈ TMap.GenerateKeyArray c.Stats → ∃ out, SetStatBaseValue c n v = some out)) ∧
    ((∀ out, SetStatChangePerTickValue c n v = some out →
        TMap.GenerateKeyArray out.2.Stats = TMap.GenerateKeyArray c.Stats) ∧
      (n ∈ TMap.GenerateKeyArray c.Stats → ∃ out, SetStatChangePerTickValue c n v = some out)) ∧
    ((∀ out, SetStatMinValue c n v = some out →
        TMap.GenerateKeyArray out.2.Stats = TMap.GenerateKeyArray c.Stats) ∧
      (n ∈ TMap.GenerateKeyArray c.Stats → ∃ out, SetStatMinValue c n v = some out)) ∧
    ((∀ out, SetStatMaxValue c n v = some out →
        TMap.GenerateKeyArray out.2.Stats = TMap.GenerateKeyArray c.Stats) ∧
      (n ∈ TMap.GenerateKeyArray c.Stats → ∃ out, SetStatMaxValue c n v = some out)) ∧
    ((∀ out, UStatsComponent.ResetStat c n = some out →
        TMap.GenerateKeyArray out.2.Stats = TMap.GenerateKeyArray c.Stats) ∧
      (n ∈ TMap.GenerateKeyArray c.Stats → ∃ out, UStatsComponent.ResetStat c n = some out)) ∧
    (∃ c1, StatTick c = some c1 ∧
      TMap.GenerateKeyArray c1.Stats = TMap.GenerateKeyArray c.Stats) ∧
    (∃ c1, ResetAllStats c = some c1 ∧
      TMap.GenerateKeyArray c1.Stats = TMap.GenerateKeyArray c.Stats) := by
  refine ⟨⟨?_, ?_⟩, ⟨?_, ?_⟩, ⟨?_, ?_⟩, ⟨?_, ?_⟩, ⟨?_, ?_⟩, ⟨?_, ?_⟩, ⟨?_, ?_⟩, ?_, ?_⟩
  · intro out ho
    rw [SetStatCurrentValue_eq] at ho
    exact (store_map_frame c n _ _ _ out ho).1
  · intro hn
    obtain ⟨w, hw⟩ := Find_isSome_of_mem_keys c.Stats n hn
    obtain ⟨c1, h1, _⟩ := store_map_self c n _ _ _ w hw
    exact ⟨_, (SetStatCurrentValue_eq c n v).trans h1⟩
  · intro out ho
    rw [AddStatCurrentValue_eq] at ho
    exact (store_map_frame c n _ _ _ out ho).1
  · intro hn
    obtain ⟨w, hw⟩ := Find_isSome_of_mem_keys c.Stats n hn
    obtain ⟨c1, h1, _⟩ := store_map_self c n _ _ _ w hw
    exact ⟨_, (AddStatCurrentValue_eq c n v).trans h1⟩
  · intro out ho
    rw [SetStatBaseValue_eq] at ho
    exact (store_map_frame c n _ _ _ out ho).1
  · intro hn
    obtain ⟨w, hw⟩ := Find_isSome_of_mem_keys c.Stats n hn
    obtain ⟨c1, h1, _⟩ := store_map_self c n _ _ _ w hw
    exact ⟨_, (SetStatBaseValue_eq c n v).trans h1⟩
  · intro out ho
    rw [SetStatChangePerTickValue_eq] at ho
    exact (store_map_frame c n _ _ _ out ho).1
  · intro hn
    obtain ⟨w, hw⟩ := Find_isSome_of_mem_keys c.Stats n hn
    obtain ⟨c1, h1, _⟩ := store_map_self c n _ _ _ w hw
    exact ⟨_, (SetStatChangePerTickValue_eq c n v).trans h1⟩
  · intro out ho
    rw [SetStatMinValue_eq] at ho
    exact (store_map_frame c n _ _ _ out ho).1
  · intro hn
    obtain ⟨w, hw⟩ := Find_isSome_of_mem_keys c.Stats n hn
    obtain ⟨c1, h1, _⟩ := store_map_self c n _ _ _ w hw
    exact ⟨_, (SetStatMinValue_eq c n v).trans h1⟩
  · intro out ho
    rw [SetStatMaxValue_eq] at ho
    exact (store_map_frame c n _ _ _ out ho).1
  · intro hn
    obtain ⟨w, hw⟩ := Find_isSome_of_mem_keys c.Stats n hn
    obtain ⟨c1, h1, _⟩ := store_map_self c n _ _ _ w hw
    exact ⟨_, (SetStatMaxValue_eq c n v).trans h1⟩
  · intro out ho
    rw [ResetStat_eq] at ho
    exact (store_map_frame c n _ _ _ out ho).1
  · intro hn
    obtain ⟨w, hw⟩ := Find_isSome_of_mem_keys c.Stats n hn
    obtain ⟨c1, h1, _⟩ := store_map_self c n _ _ _ w hw
    exact ⟨_, (ResetStat_eq c n).trans h1⟩
  · obtain ⟨c1, h1, _, h3⟩ := StatTick_loop_total (TMap.GenerateKeyArray c.Stats) c
      (fun _ hn => hn)
    exact ⟨c1, h1, h3⟩
  · obtain ⟨c1, h1, _, h3⟩ := ResetAllStats_loop_total (TMap.GenerateKeyArray c.Stats) c
      (fun _ hn => hn)
    exact ⟨c1, h1, h3⟩

theorem registered_names_unchanged_witness :
    (∃ out, SetStatMaxValue scenario "Stamina" 50 = some out ∧
      TMap.GenerateKeyArray out.2.Stats = ["Health", "Stamina"]) ∧
    (∃ c1, StatTick scenario = some c1 ∧ TMap.GenerateKeyArray c1.Stats = ["Health", "Stamina"]) := by
  have w := registered_names_unchanged scenario "Stamina" 50
  obtain ⟨out, ho⟩ := w.2.2.2.2.2.1.2 (by decide)
  obtain ⟨c1, h1, h2⟩ := w.2.2.2.2.2.2.2.1
  exact ⟨⟨out, ho, (w.2.2.2.2.2.1.1 out ho).trans (by decide)⟩, ⟨c1, h1, h2.trans (by decide)⟩⟩

/-- Frame and delegation wherever a call has a result: for distinct names `a`
and `b` with `b` registered, every result of a per-stat mutator called with
`a` still has under `b` the record that was there; and when `a` is registered
with record `wa`, the mutator has a result, returns what the matching
`FStatData` operation returns on `wa`, and stores under `a` the record that
operation produces. -/
theorem mutators_frame_and_delegate (c : UStatsComponent) (a b : FName) (v : ℚ)
    (wb : FStatData) (hab : a ≠ b) (hb : GetStat c b = some wb) :
    ((∀ out, SetStatCurrentValue c a v = some out → GetStat out.2 b = some wb) ∧
      (∀ wa, GetStat c a = some wa →
        ∃ c1, SetStatCurrentValue c a v = some ((wa.SetCurrentValue v).1, c1) ∧
          GetStat c1 a = some (wa.SetCurrentValue v).2 ∧ GetStat c1 b = some wb)) ∧
    ((∀ out, AddStatCurrentValue c a v = some out → GetStat out.2 b = some wb) ∧
      (∀ wa, GetStat c a = some wa →
        ∃ c1, AddStatCurrentValue c a v = some ((wa.AddCurrentValue v).1, c1) ∧
          GetStat c1 a = some (wa.AddCurrentValue v).2 ∧ GetStat c1 b = some wb)) ∧
    ((∀ out, SetStatBaseValue c a v = some out → GetStat out.2 b = some wb) ∧
      (∀ wa, GetStat c a = some wa →
        ∃ c1, SetStatBaseValue c a v = some ((wa.SetBaseValue v).1, c1) ∧
          GetStat c1 a = some (wa.SetBaseValue v).2 ∧ GetStat c1 b = some wb)) ∧
    ((∀ out, SetStatChangePerTickValue c a v = some out → GetStat out.2 b = some wb) ∧
      (∀ wa, GetStat c a = some wa →
        ∃ c1, SetStatChangePerTickValue c a v = some ((wa.SetChangePerTickValue v).1, c1) ∧
          GetStat c1 a = some (wa.SetChangePerTickValue v).2 ∧ GetStat c1 b = some wb)) ∧
    ((∀ out, SetStatMinValue c a v = some out → GetStat out.2 b = some wb) ∧
      (∀ wa, GetStat c a = some wa →
        ∃ c1, SetStatMinValue c a v = some ((wa.SetMinValue v).1, c1) ∧
          GetStat c1 a = some (wa.SetMinValue v).2 ∧ GetStat c1 b = some wb)) ∧
    ((∀ out, SetStatMaxValue c a v = some out → GetStat out.2 b = some wb) ∧
      (∀ wa, GetStat c a = some wa →
        ∃ c1, SetStatMaxValue c a v = some ((wa.SetMaxValue v).1, c1) ∧
          GetStat c1 a = some (wa.SetMaxValue v).2 ∧ GetStat c1 b = some wb)) ∧
    ((∀ out, UStatsComponent.ResetStat c a = some out → GetStat out.2 b = some wb) ∧
      (∀ wa, GetStat c a = some wa →
        ∃ c1, UStatsComponent.ResetStat c a = some ((wa.ResetStat).1, c1) ∧
          GetStat c1 a = some (wa.ResetStat).2 ∧ GetStat c1 b = some wb)) := by
  have hba : b ≠ a := fun x => hab x.symm
  refine ⟨⟨?_, ?_⟩, ⟨?_, ?_⟩, ⟨?_, ?_⟩, ⟨?_, ?_⟩, ⟨?_, ?_⟩, ⟨?_, ?_⟩, ⟨?_, ?_⟩⟩
  · intro out ho
    rw [SetStatCurrentValue_eq] at ho
    rw [(store_map_frame c a _ _ _ out ho).2 b hba, hb]
  · intro wa hwa
    obtain ⟨c1, h1, h2⟩ := store_map_self c a (fun w => (w.SetCurrentValue v).1)
      (fun w => (w.SetCurrentValue v).2) (fun w => c.OnStatChanged ++ [(a, (w.SetCurrentValue v).1)]) wa hwa
    have h3 := (SetStatCurrentValue_eq c a v).trans h1
    refine ⟨c1, h3, h2, ?_⟩
    have h4 := (SetStatCurrentValue_eq c a v).symm.trans h3
    rw [(store_map_frame c a _ _ _ _ h4).2 b hba, hb]
  · intro out ho
    rw [AddStatCurrentValue_eq] at ho
    rw [(store_map_frame c a _ _ _ out ho).2 b hba, hb]
  · intro wa hwa
    obtain ⟨c1, h1, h2⟩ := store_map_self c a (fun w => (w.AddCurrentValue v).1)
      (fun w => (w.AddCurrentValue v).2) (fun _ => c.OnStatChanged) wa hwa
    have h3 := (AddStatCurrentValue_eq c a v).trans h1
    refine ⟨c1, h3, h2, ?_⟩
    have h4 := (AddStatCurrentValue_eq c a v).symm.trans h3
    rw [(store_map_frame c a _ _ _ _ h4).2 b hba, hb]
  · intro out ho
    rw [SetStatBaseValue_eq] at ho
    rw [(store_map_frame c a _ _ _ out ho).2 b hba, hb]
  · intro wa hwa
    obtain ⟨c1, h1, h2⟩ := store_map_self c a (fun w => (w.SetBaseValue v).1)
      (fun w => (w.SetBaseValue v).2) (fun _ => c.OnStatChanged) wa hwa
    have h3 := (SetStatBaseValue_eq c a v).trans h1
    refine ⟨c1, h3, h2, ?_⟩
    have h4 := (SetStatBaseValue_eq c a v).symm.trans h3
    rw [(store_map_frame c a _ _ _ _ h4).2 b hba, hb]
  · intro out ho
    rw [SetStatChangePerTickValue_eq] at ho
    rw [(store_map_frame c a _ _ _ out ho).2 b hba, hb]
  · intro wa hwa
    obtain ⟨c1, h1, h2⟩ := store_map_self c a (fun w => (w.SetChangePerTickValue v).1)
      (fun w => (w.SetChangePerTickValue v).2) (fun _ => c.OnStatChanged) wa hwa
    have h3 := (SetStatChangePerTickValue_eq c a v).trans h1
    refine ⟨c1, h3, h2, ?_⟩
    have h4 := (SetStatChangePerTickValue_eq c a v).symm.trans h3
    rw [(store_map_frame c a _ _ _ _ h4).2 b hba, hb]
  · intro out ho
    rw [SetStatMinValue_eq] at ho
    rw [(store_map_frame c a _ _ _ out ho).2 b hba, hb]
  · intro wa hwa
    obtain ⟨c1, h1, h2⟩ := store_map_self c a (fun w => (w.SetMinValue v).1)
      (fun w => (w.SetMinValue v).2) (fun _ => c.OnStatChanged) wa hwa
    have h3 := (SetStatMinValue_eq c a v).trans h1
    refine ⟨c1, h3, h2, ?_⟩
    have h4 := (SetStatMinValue_eq c a v).symm.trans h3
    rw [(store_map_frame c a _ _ _ _ h4).2 b hba, hb]
  · intro out ho
    rw [SetStatMaxValue_eq] at ho
    rw [(store_map_frame c a _ _ _ out ho).2 b hba, hb]
  · intro wa hwa
    obtain ⟨c1, h1, h2⟩ := store_map_self c a (fun w => (w.SetMaxValue v).1)
      (fun w => (w.SetMaxValue v).2) (fun _ => c.OnStatChanged) wa hwa
    have h3 := (SetStatMaxValue_eq c a v).trans h1
    refine ⟨c1, h3, h2, ?_⟩
    have h4 := (SetStatMaxValue_eq c a v).symm.trans h3
    rw [(store_map_frame c a _ _ _ _ h4).2 b hba, hb]
  · intro out ho
    rw [ResetStat_eq] at ho
    rw [(store_map_frame c a _ _ _ out ho).2 b hba, hb]
  · intro wa hwa
    obtain ⟨c1, h1, h2⟩ := store_map_self c a (fun w => (w.ResetStat).1)
      (fun w => (w.ResetStat).2) (fun _ => c.OnStatChanged) wa hwa
    have h3 := (ResetStat_eq c a).trans h1
    refine ⟨c1, h3, h2, ?_⟩
    have h4 := (ResetStat_eq c a).symm.trans h3
    rw [(store_map_frame c a _ _ _ _ h4).2 b hba, hb]

theorem mutators_frame_and_delegate_witness :
    ∃ c1, SetStatMaxValue scenario "Stamina" 50 = some (50, c1) ∧
      GetStat c1 "Stamina" = some (FStatData.mk 50 0 50 50 5) ∧
      GetStat c1 "Health" = some (FStatData.ctor4 100 0 100 0) := by
  have w := (mutators_frame_and_delegate scenario "Stamina" "Health" 50
    (FStatData.ctor4 100 0 100 0) (by decide) (by decide)).2.2.2.2.2.1.2
    (FStatData.ctor4 50 0 100 5) (by decide)
  obtain ⟨c1, h1, h2, h3⟩ := w
  have e1 : ((FStatData.ctor4 50 0 100 5).SetMaxValue 50).1 = 50 := by decide
  have e2 : ((FStatData.ctor4 50 0 100 5).SetMaxValue 50).2 = FStatData.mk 50 0 50 50 5 := by
    decide
  rw [e1] at h1
  rw [e2] at h2
  exact ⟨c1, h1, h2, h3⟩

theorem roundBinary32_16777217 : roundBinary32 16777217 = 16777216 := by
  have hlog : Int.log 2 (16777217 : ℚ) = 24 := by
    have h : ((16777217 : ℕ) : ℚ) = 16777217 := by norm_num
    rw [← h, Int.log_natCast]
    norm_cast
    exact Nat.log_eq_of_pow_le_of_lt_pow (by norm_num) (by norm_num)
  have hf : ⌊(16777217 / 2 : ℚ)⌋ = 8388608 := by
    rw [Int.floor_eq_iff]
    constructor <;> norm_num
  unfold roundBinary32
  rw [abs_of_pos (by norm_num : (0 : ℚ) < 16777217), hlog]
  norm_num [roundHalfEven, hf]

theorem roundBinary32_55 : roundBinary32 55 = 55 := by
  have hlog : Int.log 2 (55 : ℚ) = 5 := by
    have h : ((55 : ℕ) : ℚ) = 55 := by norm_num
    rw [← h, Int.log_natCast]
    norm_cast
    exact Nat.log_eq_of_pow_le_of_lt_pow (by norm_num) (by norm_num)
  have hf : ⌊(14417920 : ℚ)⌋ = 14417920 := by
    rw [Int.floor_eq_iff]
    constructor <;> norm_num
  unfold roundBinary32
  rw [abs_of_pos (by norm_num : (0 : ℚ) < 55), hlog]
  norm_num [roundHalfEven, hf]

theorem StatTickUpdateRounded_id (s : FStatData) :
    FStatData.StatTickUpdateRounded id s = s.StatTickUpdate :=
  rfl

theorem StatTickUpdateRounded_stalls :
    FStatData.StatTickUpdateRounded roundBinary32 (FStatData.mk 16777216 0 100000000 16777216 1) =
      FStatData.mk 16777216 0 100000000 16777216 1 := by
  have e : (16777216 : ℚ) + 1 = 16777217 := by norm_num
  simp only [FStatData.StatTickUpdateRounded, FStatData.IsChangingPerTick,
    FStatData.GetChangePerTick, FStatData.AddCurrentValueRounded, FStatData.SetCurrentValue, e,
    roundBinary32_16777217]
  norm_num [FMath.Clamp]

/-- C3 as stated fails on `float` sums: for the record with current value
`16777216 = 2 ^ 24`, range `[0, 100000000]` and `ChangePerTick = 1`, the sum
`16777216.0f + 1.0f` rounds back to `16777216.0f`, so one `StatTickUpdate`,
and three of them, leave the current value at `16777216`, while `c0 + N * d`
clamped to the range is `16777217` and `16777219`. -/
theorem StatTickUpdate_float_sum_stalls :
    ((FStatData.StatTickUpdateRounded roundBinary32)^[1]
      (FStatData.mk 16777216 0 100000000 16777216 1)).CurrentValue = 16777216 ∧
    FMath.Clamp (16777216 + ((1 : ℕ) : ℚ) * 1) 0 100000000 = 16777217 ∧
    ((FStatData.StatTickUpdateRounded roundBinary32)^[3]
      (FStatData.mk 16777216 0 100000000 16777216 1)).CurrentValue = 16777216 ∧
    FMath.Clamp (16777216 + ((3 : ℕ) : ℚ) * 1) 0 100000000 = 16777219 ∧
    (FStatData.mk 16777216 0 100000000 16777216 1).InRange ∧
    ((FStatData.StatTickUpdateRounded roundBinary32)^[1]
      (FStatData.mk 16777216 0 100000000 16777216 1)).CurrentValue ≠
      FMath.Clamp (16777216 + ((1 : ℕ) : ℚ) * 1) 0 100000000 := by
  have e1 : FMath.Clamp (16777216 + ((1 : ℕ) : ℚ) * 1) 0 100000000 = 16777217 := by
    norm_num [FMath.Clamp]
  refine ⟨?_, e1, ?_, ?_, ?_, ?_⟩
  · rw [Function.iterate_fixed StatTickUpdateRounded_stalls]
  · rw [Function.iterate_fixed StatTickUpdateRounded_stalls]
  · norm_num [FMath.Clamp]
  · unfold FStatData.InRange
    norm_num
  · rw [Function.iterate_fixed StatTickUpdateRounded_stalls, e1]
    norm_num

/-- C3, amended: on a record with `MinValue ≤ c0 ≤ MaxValue` (`c0` its current
value) and `ChangePerTick = d`, whatever the rounding of the `float` sums, `N`
successive `StatTickUpdate` calls change no field but `CurrentValue` and leave
it inside `[MinValue, MaxValue]`; and when each of the `N` sums is computed
without rounding error, `CurrentValue` is `c0 + N * d` clamped to
`[MinValue, MaxValue]`. -/
theorem StatTickUpdateRounded_iterate (rnd : ℚ → ℚ) (s : FStatData) (N : ℕ)
    (hlo : s.MinValue ≤ s.CurrentValue) (hhi : s.CurrentValue ≤ s.MaxValue) :
    (∃ x, (FStatData.StatTickUpdateRounded rnd)^[N] s = { s with CurrentValue := x } ∧
      s.MinValue ≤ x ∧ x ≤ s.MaxValue) ∧
    ((∀ k : ℕ, k < N →
        rnd (FMath.Clamp (s.CurrentValue + k * s.ChangePerTick) s.MinValue s.MaxValue +
          s.ChangePerTick) =
        FMath.Clamp (s.CurrentValue + k * s.ChangePerTick) s.MinValue s.MaxValue +
          s.ChangePerTick) →
      (FStatData.StatTickUpdateRounded rnd)^[N] s =
        { s with CurrentValue :=
            FMath.Clamp (s.CurrentValue + N * s.ChangePerTick) s.MinValue s.MaxValue }) := by
  constructor
  · induction N with
    | zero => exact ⟨s.CurrentValue, rfl, hlo, hhi⟩
    | succ n ih =>
      obtain ⟨x, hx, h1, h2⟩ := ih
      rw [Function.iterate_succ_apply', hx]
      unfold FStatData.StatTickUpdateRounded
      split
      · exact ⟨FMath.Clamp (rnd (x + s.ChangePerTick)) s.MinValue s.MaxValue, rfl,
          clamp_ge _ _ _, clamp_le _ _ _ (le_trans hlo hhi)⟩
      · exact ⟨x, rfl, h1, h2⟩
  · induction N with
    | zero =>
      intro _
      exact (StatTickUpdate_iterate s 0 hlo hhi).1
    | succ n ih =>
      intro hex
      have hn := ih (fun k hk => hex k (Nat.lt_succ_of_lt hk))
      have hk := hex n (Nat.lt_succ_self n)
      have e1 := (StatTickUpdate_iterate s n hlo hhi).1
      have e2 := (StatTickUpdate_iterate s (n + 1) hlo hhi).1
      rw [Function.iterate_succ_apply', e1] at e2
      rw [Function.iterate_succ_apply', hn, ← e2]
      simp only [FStatData.StatTickUpdateRounded, FStatData.StatTickUpdate,
        FStatData.AddCurrentValueRounded, FStatData.AddCurrentValue, hk]

theorem StatTickUpdateRounded_iterate_witness :
    (∃ x, (FStatData.StatTickUpdateRounded roundBinary32)^[3]
        (FStatData.mk 16777216 0 100000000 16777216 1) =
        { FStatData.mk 16777216 0 100000000 16777216 1 with CurrentValue := x } ∧
      (0 : ℚ) ≤ x ∧ x ≤ 100000000) ∧
    ((FStatData.StatTickUpdateRounded roundBinary32)^[1]
      (FStatData.ctor4 50 0 100 5)).CurrentValue = 55 := by
  refine ⟨(StatTickUpdateRounded_iterate roundBinary32
      (FStatData.mk 16777216 0 100000000 16777216 1) 3 (by decide) (by decide)).1, ?_⟩
  have w := (StatTickUpdateRounded_iterate roundBinary32 (FStatData.ctor4 50 0 100 5) 1
    (by decide) (by decide)).2 (by
      intro k hk
      have hk0 : k = 0 := by omega
      subst hk0
      have e : FMath.Clamp ((FStatData.ctor4 50 0 100 5).CurrentValue +
          ((0 : ℕ) : ℚ) * (FStatData.ctor4 50 0 100 5).ChangePerTick)
          (FStatData.ctor4 50 0 100 5).MinValue (FStatData.ctor4 50 0 100 5).MaxValue +
          (FStatData.ctor4 50 0 100 5).ChangePerTick = 55 := by
        norm_num [FMath.Clamp, FStatData.ctor4]
      rw [e, roundBinary32_55])
  rw [w]
  norm_num [FMath.Clamp, FStatData.ctor4]

/-! ## Broadcasts -/

theorem bulk_operations_no_broadcast (c : UStatsComponent) :
    (∃ c1, StatTick c = some c1 ∧ c1.OnStatChanged = c.OnStatChanged) ∧
    (∃ c1, ResetAllStats c = some c1 ∧ c1.OnStatChanged = c.OnStatChanged) := by
  obtain ⟨c1, h1, h2, _⟩ := StatTick_loop_total (TMap.GenerateKeyArray c.Stats) c
    (fun _ hn => hn)
  obtain ⟨c2, g1, g2, _⟩ := ResetAllStats_loop_total (TMap.GenerateKeyArray c.Stats) c
    (fun _ hn => hn)
  exact ⟨⟨c1, h1, h2⟩, ⟨c2, g1, g2⟩⟩

end SimpleStats
